import Mathlib

/-!
Verification of the libws WebSocket core against its specification.

The repository ships only the public interface header (`src/src/libws.h`);
the implementation files are not present.  All behavior below is therefore
modelled from the specification (`spec.md`), which describes the masker,
the RFC 6455 header codec, the incremental frame parser, the message
assembler, the sender/fragmenter, the handshake accept derivation and the
session controller.  Bytes are modelled as natural numbers (values < 256 on
the wire), buffers as `List Nat`, and machine integers as `Nat` with
explicit `% 2^w` where overflow matters.
-/

namespace LibWs

/-! ## Masker (spec 4.1) -/

/-- Modelled from the spec: the four bytes of a 32-bit mask key, in the
order they appear on the wire (the implementation of `ws_mask_payload` is
not under `src/`; spec 4.1 describes a 32-bit XOR masker). -/
def u32Bytes (k : Nat) : List Nat :=
  [k % 256, k / 256 % 256, k / 256 / 256 % 256, k / 256 / 256 / 256 % 256]

/-- Modelled from the spec: XOR a key byte list (cyclic, period 4) over a
byte range starting at a given bit-stream offset, as spec 4.1 requires so
that partial-frame calls chain correctly. -/
def maskBytesAt (kb : List Nat) (off : Nat) : List Nat → List Nat
  | [] => []
  | b :: rest => (b ^^^ kb.getD (off % 4) 0) :: maskBytesAt kb (off + 1) rest

/-- Modelled from the spec: the offset-taking masker of spec 4.1. -/
def maskAtOffset (key : Nat) (off : Nat) (msg : List Nat) : List Nat :=
  maskBytesAt (u32Bytes key) off msg

/-- Modelled from the spec: `ws_mask_payload(mask, msg, len)` masks a whole
payload (offset 0); the length argument is implicit in the list. -/
def ws_mask_payload (mask : Nat) (msg : List Nat) : List Nat :=
  maskBytesAt (u32Bytes mask) 0 msg

/-- Modelled from the spec: `ws_unmask_payload` — XOR masking is symmetric,
one routine serves both directions. -/
def ws_unmask_payload (mask : Nat) (msg : List Nat) : List Nat :=
  maskBytesAt (u32Bytes mask) 0 msg

/-! ## Header codec (spec 4.2) -/

/-- Frame header as produced by the decoder (spec 3: RSV bits must be zero,
so a decoded header does not carry them; `maskKeyBytes` are the four key
bytes in wire order, `[0,0,0,0]` for an unmasked frame). -/
structure WsHeader where
  fin : Bool
  opcode : Nat
  masked : Bool
  payloadLen : Nat
  maskKeyBytes : List Nat
  deriving DecidableEq

/-- Protocol-error reasons of the header decoder (spec 4.2). -/
inductive DecodeErr where
  | rsvSet
  | badOpcode
  | serverMasked
  | controlTooBig
  | controlFragmented
  | lenHighBit
  | internalState
  deriving DecidableEq

/-- Result of the incremental header decoder (spec 4.2). -/
inductive DecodeResult where
  | needMore (n : Nat)
  | ok (h : WsHeader) (consumed : Nat)
  | protocolError (r : DecodeErr)
  deriving DecidableEq

/-- Valid opcodes are CONT=0, TEXT=1, BINARY=2, CLOSE=8, PING=9, PONG=10. -/
def validOp (op : Nat) : Bool :=
  op == 0 || op == 1 || op == 2 || op == 8 || op == 9 || op == 10

/-- Control opcodes are 8, 9, 10. -/
def isControlOp (op : Nat) : Bool :=
  op == 8 || op == 9 || op == 10

/-- Modelled from the spec: final step of header decoding — read the 4-byte
mask key when the masked bit is set, otherwise finish immediately. -/
def decodeFinish (fin : Bool) (op : Nat) (masked : Bool) (plen : Nat)
    (rest : List Nat) (consumed : Nat) : DecodeResult :=
  if masked then
    match rest with
    | k0 :: k1 :: k2 :: k3 :: _ =>
        .ok ⟨fin, op, true, plen, [k0 % 256, k1 % 256, k2 % 256, k3 % 256]⟩ (consumed + 4)
    | l => .needMore (4 - l.length)
  else .ok ⟨fin, op, false, plen, [0, 0, 0, 0]⟩ consumed

/-- Modelled from the spec: decoding of the 16-bit extended length form. -/
def decodeLen126 (fin : Bool) (op : Nat) (masked : Bool) : List Nat → DecodeResult
  | x :: y :: rest2 => decodeFinish fin op masked ((x % 256) * 256 + y % 256) rest2 4
  | l => .needMore (2 - l.length + (if masked then 4 else 0))

/-- Modelled from the spec: remaining seven bytes of the 64-bit extended
length form, after the high byte has been checked. -/
def decodeLen127Tail (fin : Bool) (op : Nat) (masked : Bool) (x1 : Nat) :
    List Nat → DecodeResult
  | x2 :: x3 :: x4 :: x5 :: x6 :: x7 :: x8 :: rest2 =>
      decodeFinish fin op masked
        (x1 % 256 * 2 ^ 56 + x2 % 256 * 2 ^ 48 + x3 % 256 * 2 ^ 40
          + x4 % 256 * 2 ^ 32 + x5 % 256 * 2 ^ 24 + x6 % 256 * 2 ^ 16
          + x7 % 256 * 2 ^ 8 + x8 % 256) rest2 10
  | l => .needMore (7 - l.length + (if masked then 4 else 0))

/-- Modelled from the spec: decoding of the 64-bit extended length form —
a set high bit is a protocol error, checked as soon as the first extended
length byte is available. -/
def decodeLen127 (fin : Bool) (op : Nat) (masked : Bool) : List Nat → DecodeResult
  | [] => .needMore (8 + (if masked then 4 else 0))
  | x1 :: rtail =>
      if 128 ≤ x1 % 256 then .protocolError .lenHighBit
      else decodeLen127Tail fin op masked x1 rtail

/-- Modelled from the spec: the incremental RFC 6455 header decoder of
spec 4.2 (the implementation is not under `src/`).  It consumes at most 14
bytes and reports `needMore`, `ok (header, consumed)` or `protocolError`.
With `strict = true` (client receiving from the server) a masked frame is
a protocol error; with `strict = false` the decoder is symmetric and reads
the mask key (spec 4.3 reuse remark). -/
def decodeHeader (strict : Bool) : List Nat → DecodeResult
  | [] => .needMore 2
  | [_] => .needMore 1
  | b0 :: b1 :: rest =>
    let v0 := b0 % 256
    let v1 := b1 % 256
    let fin : Bool := decide (128 ≤ v0)
    let op := v0 % 16
    let masked : Bool := decide (128 ≤ v1)
    let len7 := v1 % 128
    if v0 / 16 % 8 ≠ 0 then .protocolError .rsvSet
    else if validOp op = false then .protocolError .badOpcode
    else if strict = true ∧ masked = true then .protocolError .serverMasked
    else if isControlOp op = true ∧ 125 < len7 then .protocolError .controlTooBig
    else if isControlOp op = true ∧ fin = false then .protocolError .controlFragmented
    else if len7 ≤ 125 then decodeFinish fin op masked len7 rest 2
    else if len7 = 126 then decodeLen126 fin op masked rest
    else decodeLen127 fin op masked rest

/-- The error conditions of claim C6, as a predicate on the input bytes:
nonzero RSV, invalid opcode, control frame with length > 125 or fin = 0,
64-bit extended length with its high bit set, or a masked frame received
from the server. -/
def headerErrCond : List Nat → Bool
  | b0 :: b1 :: rest =>
      let v0 := b0 % 256
      let v1 := b1 % 256
      decide (v0 / 16 % 8 ≠ 0)
      || !(validOp (v0 % 16))
      || (isControlOp (v0 % 16) && (decide (125 < v1 % 128) || decide (v0 < 128)))
      || (decide (v1 % 128 = 127)
           && (match rest with | x :: _ => decide (128 ≤ x % 256) | [] => false))
      || decide (128 ≤ v1)
  | _ => false

/-- Whether a decode result is a protocol error. -/
def isProtocolError : DecodeResult → Bool
  | .protocolError _ => true
  | _ => false

/-! ## Frame parser (spec 4.3) -/

/-- Events emitted by the byte-fed frame parser (spec 4.3). -/
inductive WsEvent where
  | frameBegin (h : WsHeader)
  | framePayload (chunk : List Nat)
  | frameEnd
  | parseError (r : DecodeErr)
  deriving DecidableEq

/-- Parser state: collecting header bytes, streaming a payload (with the
payload bytes still expected and the mask offset so far), or failed. -/
inductive PState where
  | wantHdr (buf : List Nat)
  | wantPayload (h : WsHeader) (remaining : Nat) (maskOff : Nat)
  | failed (r : DecodeErr)
  deriving DecidableEq

/-- Initial parser state. -/
def initPState : PState := .wantHdr []

/-- Modelled from the spec: the byte-fed frame parser of spec 4.3 (the
implementation is not under `src/`), with an explicit fuel argument (any
fuel ≥ the number of input bytes gives the same result, see
`feedFuel_congr`).  Header bytes are consumed one at a time through the
incremental decoder; payload chunks are emitted as they arrive with length
`min (available, payload_remaining)` and are unmasked in place with mask
offset tracking across chunks. -/
def feedFuel (strict : Bool) : Nat → PState → List Nat → PState × List WsEvent
  | _, .failed r, _ => (.failed r, [])
  | _, s, [] => (s, [])
  | 0, s, _ :: _ => (s, [])
  | fuel + 1, .wantHdr buf, b :: rest =>
    match decodeHeader strict (buf ++ [b]) with
    | .needMore _ => feedFuel strict fuel (.wantHdr (buf ++ [b])) rest
    | .protocolError r => (.failed r, [.parseError r])
    | .ok h _ =>
      if h.payloadLen = 0 then
        let res := feedFuel strict fuel (.wantHdr []) rest
        (res.1, .frameBegin h :: .frameEnd :: res.2)
      else
        let res := feedFuel strict fuel (.wantPayload h h.payloadLen 0) rest
        (res.1, .frameBegin h :: res.2)
  | fuel + 1, .wantPayload h rem off, b :: rest =>
    if rem = 0 then (.failed .internalState, [.parseError .internalState])
    else
      let n := min rem (b :: rest).length
      let chunk := maskBytesAt h.maskKeyBytes off ((b :: rest).take n)
      if rem ≤ (b :: rest).length then
        let res := feedFuel strict fuel (.wantHdr []) ((b :: rest).drop n)
        (res.1, .framePayload chunk :: .frameEnd :: res.2)
      else (.wantPayload h (rem - n) (off + n), [.framePayload chunk])

/-- Modelled from the spec: `feed(bytes) → [events]` of spec 4.3. -/
def feed (strict : Bool) (s : PState) (bytes : List Nat) : PState × List WsEvent :=
  feedFuel strict bytes.length s bytes

/-! ## Parser chunking invariance (claim C2) -/

/-- Split one event into byte-granular events: a payload chunk becomes one
single-byte payload event per byte, every other event is kept.  Two event
sequences that agree after this normalization carry the same frames and the
same payload bytes and differ only in payload chunk boundaries. -/
def splitPayload : WsEvent → List WsEvent
  | .framePayload c => c.map (fun b => .framePayload [b])
  | e => [e]

/-- Event-sequence normalization to byte-granular payload chunks. -/
def normEvents (es : List WsEvent) : List WsEvent :=
  (es.map splitPayload).flatten

/-- Feeding the parser a sequence of chunks, one `feed` call per chunk. -/
def feedAll (strict : Bool) (s : PState) : List (List Nat) → PState × List WsEvent
  | [] => (s, [])
  | c :: cs =>
    let r1 := feed strict s c
    let r2 := feedAll strict r1.1 cs
    (r2.1, r1.2 ++ r2.2)

/-! ## UTF-8 validation (spec 3 invariant 8, spec 4.4) -/

/-- Whether a byte is a UTF-8 continuation byte (0x80–0xBF). -/
def contB (c : Nat) : Bool :=
  decide (128 ≤ c) && decide (c ≤ 191)

/-- Modelled from the spec: RFC 3629 UTF-8 well-formedness of a byte
sequence (spec 4.4 requires reassembled TEXT payloads to be valid UTF-8;
the validator itself is not under `src/`).  Overlong encodings (such as
`0xC0 0xAF`), surrogates and values above U+10FFFF are rejected. -/
def validUtf8 : List Nat → Bool
  | [] => true
  | b :: rest =>
    if b ≤ 127 then validUtf8 rest
    else if b ≤ 193 then false
    else if b ≤ 223 then
      match rest with
      | c :: r => contB c && validUtf8 r
      | [] => false
    else if b ≤ 239 then
      match rest with
      | c :: d :: r =>
          (if b = 224 then decide (160 ≤ c) && decide (c ≤ 191)
           else if b = 237 then decide (128 ≤ c) && decide (c ≤ 159)
           else contB c) && contB d && validUtf8 r
      | _ => false
    else if b ≤ 244 then
      match rest with
      | c :: d :: e :: r =>
          (if b = 240 then decide (144 ≤ c) && decide (c ≤ 191)
           else if b = 244 then decide (128 ≤ c) && decide (c ≤ 143)
           else contB c) && contB d && contB e && validUtf8 r
      | _ => false
    else false

/-! ## Message assembler (spec 4.4) -/

/-- Observable assembler outputs: user callbacks and close initiations. -/
inductive AsmOut where
  | msgBegin (op : Nat)
  | frameData (chunk : List Nat)
  | frameEnd
  | message (op : Nat) (payload : List Nat)
  | pingRx (p : List Nat)
  | pongRx (p : List Nat)
  | closeFrameRx (p : List Nat)
  | closeInit (status : Nat)
  deriving DecidableEq

/-- Assembler state (spec 4.4): the opcode of the message in progress (or
`none`), the message accumulator, the header of the frame being processed,
the control-frame payload accumulator, and whether a protocol error has
already put the session on the way to a close. -/
structure AsmState where
  openOp : Option Nat
  acc : List Nat
  cur : Option WsHeader
  ctrl : List Nat
  dead : Bool
  deriving DecidableEq

/-- Initial assembler state. -/
def initAsm : AsmState := ⟨none, [], none, [], false⟩

/-- Modelled from the spec: one step of the message assembler of spec 4.4
(the implementation is not under `src/`).  Control frames are routed
independently; a TEXT/BINARY `frame_begin` requires no open message and a
CONT requires an open message, otherwise a protocol error initiates close
1002 (spec 7 propagation policy); on a final `frame_end` of a TEXT message
the reassembled payload is validated as UTF-8 and failure initiates close
1007. -/
def asmStep (st : AsmState) : WsEvent → AsmState × List AsmOut := fun ev =>
  if st.dead then (st, []) else
  match ev with
  | .frameBegin h =>
      if isControlOp h.opcode then ({ st with cur := some h, ctrl := [] }, [])
      else if h.opcode = 0 then
        match st.openOp with
        | some _ => ({ st with cur := some h }, [])
        | none => ({ st with dead := true }, [.closeInit 1002])
      else
        match st.openOp with
        | none => ({ st with openOp := some h.opcode, acc := [], cur := some h },
                   [.msgBegin h.opcode])
        | some _ => ({ st with dead := true }, [.closeInit 1002])
  | .framePayload c =>
      match st.cur with
      | some h =>
          if isControlOp h.opcode then ({ st with ctrl := st.ctrl ++ c }, [])
          else ({ st with acc := st.acc ++ c }, [.frameData c])
      | none => (st, [])
  | .frameEnd =>
      match st.cur with
      | some h =>
          if isControlOp h.opcode then
            if h.opcode = 9 then ({ st with cur := none, ctrl := [] }, [.pingRx st.ctrl])
            else if h.opcode = 10 then
              ({ st with cur := none, ctrl := [] }, [.pongRx st.ctrl])
            else ({ st with cur := none, ctrl := [] }, [.closeFrameRx st.ctrl])
          else if h.fin then
            match st.openOp with
            | some op =>
                if op = 1 ∧ validUtf8 st.acc = false then
                  ({ st with openOp := none, acc := [], cur := none, dead := true },
                   [.frameEnd, .closeInit 1007])
                else
                  ({ st with openOp := none, acc := [], cur := none },
                   [.frameEnd, .message op st.acc])
            | none => ({ st with cur := none }, [.frameEnd])
          else ({ st with cur := none }, [.frameEnd])
      | none => (st, [])
  | .parseError _ => ({ st with dead := true }, [.closeInit 1002])

/-- Run the assembler over a list of parser events. -/
def asmRun (st : AsmState) : List WsEvent → AsmState × List AsmOut
  | [] => (st, [])
  | e :: es =>
      let r1 := asmStep st e
      let r2 := asmRun r1.1 es
      (r2.1, r1.2 ++ r2.2)

/-- Full inbound pipeline: parse the wire bytes and run the assembler. -/
def wsReceive (strict : Bool) (bytes : List Nat) : List AsmOut :=
  (asmRun initAsm (feed strict initPState bytes).2).2

/-- The fully assembled messages among the assembler outputs. -/
def outMessages (outs : List AsmOut) : List (Nat × List Nat) :=
  outs.filterMap (fun o => match o with | .message op p => some (op, p) | _ => none)

/-! ## Assembler runs over data-frame event sequences -/

/-- The parser events of a single data frame whose whole payload arrived
in one feed call: `frame_begin`, one payload chunk when nonempty, and
`frame_end`. -/
def dataFrameEvents (h : WsHeader) (c : List Nat) : List WsEvent :=
  .frameBegin h :: ((if c.isEmpty then [] else [.framePayload c]) ++ [.frameEnd])

/-- The stream-API outputs for one data frame's payload. -/
def dataOutEvents (c : List Nat) : List AsmOut :=
  if c.isEmpty then [] else [.frameData c]

/-- Events of a list of data frames, each given as header plus payload. -/
def framesEvents : List (WsHeader × List Nat) → List WsEvent
  | [] => []
  | (h, c) :: fs => dataFrameEvents h c ++ framesEvents fs

/-- Concatenated payloads of a list of frames. -/
def framesPayload (fs : List (WsHeader × List Nat)) : List Nat :=
  (fs.map (fun f => f.2)).flatten

/-- Stream-API outputs of a list of continuation frames. -/
def contOuts (fs : List (WsHeader × List Nat)) : List AsmOut :=
  (fs.map (fun f => dataOutEvents f.2 ++ [AsmOut.frameEnd])).flatten

/-- Shape of the CONT tail of a fragmented message: at least one frame,
all opcodes CONT, `fin` exactly on the last frame. -/
def contFramesShape : List (WsHeader × List Nat) → Bool
  | [] => false
  | [(h, _)] => (h.opcode == 0) && h.fin
  | (h, _) :: fs => ((h.opcode == 0) && !h.fin) && contFramesShape fs

/-! ## Received messages and UTF-8 enforcement (claim C7) -/

/-- Header of an unmasked data frame as received from the server. -/
def serverDataHeader (fin : Bool) (op : Nat) (len : Nat) : WsHeader :=
  ⟨fin, op, false, len, [0, 0, 0, 0]⟩

/-- The frames of a message received from the server, one frame per payload
chunk: the first frame carries the data opcode, later frames are CONT, and
exactly the last has `fin`. -/
def serverMsgFrames (op : Nat) : List (List Nat) → List (WsHeader × List Nat)
  | [] => []
  | [c] => [(serverDataHeader true op c.length, c)]
  | c :: cs => (serverDataHeader false op c.length, c) :: serverMsgFrames 0 cs

/-- The stream-API outputs accompanying a whole received message. -/
def msgRunOuts (op : Nat) (cs : List (List Nat)) : List AsmOut :=
  AsmOut.msgBegin op :: (cs.map (fun c => dataOutEvents c ++ [AsmOut.frameEnd])).flatten

/-! ## Sender / fragmenter (spec 4.5, claim C5) -/

/-- Modelled from the spec: split a payload into chunks of at most `S`
bytes (fuel-indexed; any fuel ≥ the payload length gives the same result,
see `fragSplitF_congr`). -/
def fragSplitF (S : Nat) : Nat → List Nat → List (List Nat)
  | 0, p => [p]
  | fuel + 1, p => if p.length ≤ S then [p] else p.take S :: fragSplitF S fuel (p.drop S)

/-- Modelled from the spec: the chunks of a payload under max frame size
`S ≥ 1`. -/
def fragSplit (S : Nat) (p : List Nat) : List (List Nat) :=
  fragSplitF S p.length p

/-- Assign fin flags and opcodes to the chunks of one outbound message:
the first frame carries the message opcode, later frames are CONT, and
exactly the last frame has fin set (spec 4.5 mode 1). -/
def annotateFrames (op : Nat) : List (List Nat) → List (Bool × Nat × List Nat)
  | [] => []
  | [c] => [(true, op, c)]
  | c :: cs => (false, op, c) :: annotateFrames 0 cs

/-- Modelled from the spec: the frames `(fin, opcode, payload)` emitted by
`ws_send_msg_ex` for a single-shot message of spec 4.5 mode 1: one frame
when `max_frame_size = 0` or the payload fits, otherwise a fragmented
sequence. -/
def ws_send_frames (S : Nat) (binary : Bool) (p : List Nat) :
    List (Bool × Nat × List Nat) :=
  annotateFrames (if binary then 2 else 1) (if S = 0 then [p] else fragSplit S p)

/-! ## Frame encoder (spec 4.2 encode, 4.5 masking) -/

/-- Big-endian 16-bit length bytes. -/
def be2 (n : Nat) : List Nat := [n / 256 % 256, n % 256]

/-- Big-endian 64-bit length bytes. -/
def be8 (n : Nat) : List Nat :=
  [n / 2 ^ 56 % 256, n / 2 ^ 48 % 256, n / 2 ^ 40 % 256, n / 2 ^ 32 % 256,
   n / 2 ^ 24 % 256, n / 2 ^ 16 % 256, n / 2 ^ 8 % 256, n % 256]

/-- Modelled from the spec: RFC 6455 header serialization (spec 4.2) for a
masked client frame — smallest length encoding, masked bit set, followed
by the four mask key bytes. -/
def encodeHeaderBytes (fin : Bool) (op : Nat) (len : Nat) (kb : List Nat) : List Nat :=
  ((if fin then 128 else 0) + op)
    :: (if len ≤ 125 then (128 + len) :: kb
        else if len ≤ 65535 then 254 :: (be2 len ++ kb)
        else 255 :: (be8 len ++ kb))

/-- Modelled from the spec: one outbound client frame — header with a fresh
mask key and the payload masked in place (spec 4.5). -/
def encodeFrameClient (key : Nat) (fin : Bool) (op : Nat) (p : List Nat) : List Nat :=
  encodeHeaderBytes fin op p.length (u32Bytes key) ++ maskBytesAt (u32Bytes key) 0 p

/-- Encode a list of frames, frame `i` masked with key `keys i`. -/
def encodeFrames (keys : Nat → Nat) : Nat → List (Bool × Nat × List Nat) → List Nat
  | _, [] => []
  | i, (fin, op, c) :: fs => encodeFrameClient (keys i) fin op c ++ encodeFrames keys (i + 1) fs

/-- Modelled from the spec: the wire bytes produced by `ws_send_msg_ex`
(spec 4.5 mode 1), with `keys` supplying the fresh mask key of each frame. -/
def ws_send_msg_ex (S : Nat) (binary : Bool) (p : List Nat) (keys : Nat → Nat) : List Nat :=
  encodeFrames keys 0 (ws_send_frames S binary p)

/-- The parsed form of a list of encoded client frames: header (masked,
with the per-frame key) plus original payload. -/
def clientFrames (keys : Nat → Nat) : Nat → List (Bool × Nat × List Nat) →
    List (WsHeader × List Nat)
  | _, [] => []
  | i, (fin, op, c) :: fs =>
      (⟨fin, op, true, c.length, u32Bytes (keys i)⟩, c) :: clientFrames keys (i + 1) fs

/-! ## Handshake accept derivation (spec 4.6, claim C4) -/

/-- Left rotation within 32 bits. -/
def rotl32 (n x : Nat) : Nat := (x * 2 ^ n + x / 2 ^ (32 - n)) % 2 ^ 32

/-- The SHA-1 round function. -/
def sha1F (t b c d : Nat) : Nat :=
  if t < 20 then (b &&& c) ||| ((b ^^^ 4294967295) &&& d)
  else if t < 40 then b ^^^ c ^^^ d
  else if t < 60 then (b &&& c) ||| (b &&& d) ||| (c &&& d)
  else b ^^^ c ^^^ d

/-- The SHA-1 round constants. -/
def sha1K (t : Nat) : Nat :=
  if t < 20 then 1518500249 else if t < 40 then 1859775393
  else if t < 60 then 2400959708 else 3395469782

/-- SHA-1 message padding: a 0x80 byte, zero padding to 56 mod 64, and the
bit length as a big-endian 64-bit integer. -/
def sha1Pad (msg : List Nat) : List Nat :=
  msg ++ 128 :: List.replicate ((119 - msg.length % 64) % 64) 0 ++ be8 (8 * msg.length)

/-- The sixteen 32-bit big-endian words of one 64-byte block. -/
def sha1Words (block : List Nat) : List Nat :=
  (List.range 16).map (fun i =>
    block.getD (4 * i) 0 % 256 * 2 ^ 24 + block.getD (4 * i + 1) 0 % 256 * 2 ^ 16
      + block.getD (4 * i + 2) 0 % 256 * 2 ^ 8 + block.getD (4 * i + 3) 0 % 256)

/-- Extend sixteen words to the eighty-word message schedule. -/
def sha1Extend (w : List Nat) : List Nat :=
  (List.range 64).foldl
    (fun w _ =>
      w ++ [rotl32 1 ((w.getD (w.length - 3) 0) ^^^ (w.getD (w.length - 8) 0)
        ^^^ (w.getD (w.length - 14) 0) ^^^ (w.getD (w.length - 16) 0))]) w

/-- One SHA-1 round on the five-word state. -/
def sha1Round (st : Nat × Nat × Nat × Nat × Nat) (t : Nat) (wt : Nat) :
    Nat × Nat × Nat × Nat × Nat :=
  ((rotl32 5 st.1 + sha1F t st.2.1 st.2.2.1 st.2.2.2.1 + st.2.2.2.2 + sha1K t + wt) % 2 ^ 32,
   st.1, rotl32 30 st.2.1, st.2.2.1, st.2.2.2.1)

/-- SHA-1 compression of one 64-byte block. -/
def sha1Block (h : List Nat) (block : List Nat) : List Nat :=
  let w := sha1Extend (sha1Words block)
  let f := (List.range 80).foldl (fun st t => sha1Round st t (w.getD t 0))
    (h.getD 0 0, h.getD 1 0, h.getD 2 0, h.getD 3 0, h.getD 4 0)
  [(h.getD 0 0 + f.1) % 2 ^ 32, (h.getD 1 0 + f.2.1) % 2 ^ 32,
   (h.getD 2 0 + f.2.2.1) % 2 ^ 32, (h.getD 3 0 + f.2.2.2.1) % 2 ^ 32,
   (h.getD 4 0 + f.2.2.2.2) % 2 ^ 32]

/-- Modelled from the spec: SHA-1 of a byte sequence (the handshake code is
not under `src/`; spec 4.6 specifies the accept value as SHA-1 then
base64), as the 20 digest bytes. -/
def sha1 (msg : List Nat) : List Nat :=
  let padded := sha1Pad msg
  let hs := (List.range (padded.length / 64)).foldl
    (fun h i => sha1Block h ((padded.drop (64 * i)).take 64))
    [1732584193, 4023233417, 2562383102, 271733878, 3285377520]
  (hs.map (fun x => [x / 2 ^ 24 % 256, x / 2 ^ 16 % 256, x / 2 ^ 8 % 256, x % 256])).flatten

/-- The base64 alphabet, as ASCII codes. -/
def b64Char (n : Nat) : Nat :=
  if n < 26 then 65 + n
  else if n < 52 then 97 + (n - 26)
  else if n < 62 then 48 + (n - 52)
  else if n = 62 then 43
  else 47

/-- Modelled from the spec: standard base64 encoding with padding, as ASCII
codes. -/
def base64 : List Nat → List Nat
  | b1 :: b2 :: b3 :: rest =>
      b64Char (b1 % 256 / 4) :: b64Char (b1 % 4 * 16 + b2 % 256 / 16)
        :: b64Char (b2 % 16 * 4 + b3 % 256 / 64) :: b64Char (b3 % 64) :: base64 rest
  | [b1, b2] =>
      [b64Char (b1 % 256 / 4), b64Char (b1 % 4 * 16 + b2 % 256 / 16),
       b64Char (b2 % 16 * 4), 61]
  | [b1] => [b64Char (b1 % 256 / 4), b64Char (b1 % 4 * 16), 61, 61]
  | [] => []

/-- The ASCII bytes of a string. -/
def strBytes (s : String) : List Nat := s.data.map Char.toNat

/-- The WebSocket GUID appended to the client key (RFC 6455, spec 4.6). -/
def wsGuid : List Nat := strBytes ("258EAFA5-E914-47DA-95CA-C5AB0DC85B11")

/-- Modelled from the spec: the `Sec-WebSocket-Accept` value the core
computes and validates — `base64(SHA1(key_ascii || GUID))` (spec 4.6). -/
def wsComputeAccept (key : List Nat) : List Nat := base64 (sha1 (key ++ wsGuid))

/-! ## Session controller: close and configuration (claims C9, C10) -/

/-- Session lifecycle states (spec 3). -/
inductive WsConnState where
  | INIT
  | DNS
  | CONNECTING
  | HANDSHAKING
  | CONNECTED
  | CLOSING_SENT
  | CLOSING_RECV
  | CLOSED
  deriving DecidableEq

/-- Modelled from the spec: the session attributes of spec 3 touched by the
claims — lifecycle state, configuration fields, the close status sent, and
the frames emitted so far. -/
structure WsSession where
  state : WsConnState
  maxFrameSize : Nat
  origin : List Nat
  subprotocols : List (List Nat)
  readRate : Nat
  readBurst : Nat
  writeRate : Nat
  writeBurst : Nat
  sentCloseStatus : Option Nat
  outFrames : List (Bool × Nat × List Nat)
  deriving DecidableEq

/-- Big-endian close status bytes (spec 4.4). -/
def statusBE (status : Nat) : List Nat := [status / 256 % 256, status % 256]

/-- Modelled from the spec: `ws_close_with_status` — in CONNECTED, send a
CLOSE frame carrying the given status and move to CLOSING_SENT, returning
0; otherwise fail with -1 (spec 4.6 state table; header doc "0 on success,
-1 on failure"). -/
def ws_close_with_status (ws : WsSession) (status : Nat) : Int × WsSession :=
  if ws.state = .CONNECTED then
    (0, { ws with
          state := .CLOSING_SENT
          sentCloseStatus := some status
          outFrames := ws.outFrames ++ [(true, 8, statusBE status)] })
  else (-1, ws)

/-- Modelled from the spec: `ws_close` — closes the connection with the
"1000 normal closure" status (header doc), the CLOSE frame carrying the
big-endian status bytes 0x03 0xE8. -/
def ws_close (ws : WsSession) : Int × WsSession :=
  if ws.state = .CONNECTED then
    (0, { ws with
          state := .CLOSING_SENT
          sentCloseStatus := some 1000
          outFrames := ws.outFrames ++ [(true, 8, [3, 232])] })
  else (-1, ws)

/-- Modelled from the spec: `ws_set_max_frame_size` — store the new limit
(0 means unlimited) and return 0. -/
def ws_set_max_frame_size (ws : WsSession) (v : Nat) : Int × WsSession :=
  (0, { ws with maxFrameSize := v })

/-- Modelled from the spec: `ws_get_max_frame_size`. -/
def ws_get_max_frame_size (ws : WsSession) : Nat := ws.maxFrameSize

/-! ## Theorems -/

theorem maskBytesAt_maskBytesAt (kb : List Nat) :
    ∀ (off : Nat) (msg : List Nat),
      maskBytesAt kb off (maskBytesAt kb off msg) = msg := by
  intro off msg
  induction msg generalizing off with
  | nil => rfl
  | cons b rest ih =>
      simp [maskBytesAt, Nat.xor_cancel_right, ih]

theorem maskBytesAt_length (kb : List Nat) :
    ∀ (off : Nat) (msg : List Nat), (maskBytesAt kb off msg).length = msg.length := by
  intro off msg
  induction msg generalizing off with
  | nil => rfl
  | cons b rest ih => simp [maskBytesAt, ih]

theorem maskBytesAt_append (kb : List Nat) :
    ∀ (xs : List Nat) (off : Nat) (ys : List Nat),
      maskBytesAt kb off (xs ++ ys)
        = maskBytesAt kb off xs ++ maskBytesAt kb (off + xs.length) ys := by
  intro xs
  induction xs with
  | nil => intro off ys; simp [maskBytesAt]
  | cons b rest ih =>
      intro off ys
      simp [maskBytesAt, ih, Nat.add_assoc, Nat.add_comm 1 rest.length]

/-- Claim C1: masking round-trip — for every payload `P`, 32-bit mask key
`K` and bit-stream offset `O`, removing the mask with the same key and
offset returns the original payload, and in particular
`ws_unmask_payload K (ws_mask_payload K P) = P`, since XOR masking is
symmetric and one routine serves both directions. -/
theorem masking_round_trip :
    (∀ (P : List Nat) (K O : Nat), maskAtOffset K O (maskAtOffset K O P) = P)
    ∧ (∀ (P : List Nat) (K : Nat), ws_unmask_payload K (ws_mask_payload K P) = P)
    ∧ (∀ (P : List Nat) (K : Nat), ws_unmask_payload K P = ws_mask_payload K P) := by
  refine ⟨?_, ?_, ?_⟩
  · intro P K O; exact maskBytesAt_maskBytesAt _ _ _
  · intro P K; exact maskBytesAt_maskBytesAt _ _ _
  · intro P K; rfl

theorem decodeFinish_consumed (fin : Bool) (op : Nat) (masked : Bool) (plen : Nat)
    (rest : List Nat) (c : Nat) (h : WsHeader) (n : Nat)
    (he : decodeFinish fin op masked plen rest c = .ok h n) :
    n = c ∨ n = c + 4 := by
  unfold decodeFinish at he
  split at he
  · split at he
    · rename_i k0 k1 k2 k3 l
      exact Or.inr (by injection he with h1 h2; omega)
    · exact absurd he (by simp)
  · exact Or.inl (by injection he with h1 h2; omega)

theorem decodeFinish_not_error (fin : Bool) (op : Nat) (masked : Bool) (plen : Nat)
    (rest : List Nat) (c : Nat) :
    isProtocolError (decodeFinish fin op masked plen rest c) = false := by
  unfold decodeFinish
  split
  · split <;> simp [isProtocolError]
  · simp [isProtocolError]

theorem decodeLen126_not_error (fin : Bool) (op : Nat) (masked : Bool) (l : List Nat) :
    isProtocolError (decodeLen126 fin op masked l) = false := by
  unfold decodeLen126
  split
  · exact decodeFinish_not_error _ _ _ _ _ _
  · simp [isProtocolError]

theorem decodeLen127Tail_not_error (fin : Bool) (op : Nat) (masked : Bool)
    (x1 : Nat) (l : List Nat) :
    isProtocolError (decodeLen127Tail fin op masked x1 l) = false := by
  unfold decodeLen127Tail
  split
  · exact decodeFinish_not_error _ _ _ _ _ _
  · simp [isProtocolError]

theorem decodeLen126_consumed (fin : Bool) (op : Nat) (masked : Bool) (l : List Nat)
    (h : WsHeader) (n : Nat) (he : decodeLen126 fin op masked l = .ok h n) :
    n = 4 ∨ n = 8 := by
  unfold decodeLen126 at he
  split at he
  · rcases decodeFinish_consumed _ _ _ _ _ _ _ _ he with hn | hn <;> omega
  · exact absurd he (by simp)

theorem decodeLen127_consumed (fin : Bool) (op : Nat) (masked : Bool) (l : List Nat)
    (h : WsHeader) (n : Nat) (he : decodeLen127 fin op masked l = .ok h n) :
    n = 10 ∨ n = 14 := by
  unfold decodeLen127 at he
  split at he
  · exact absurd he (by simp)
  · split at he
    · exact absurd he (by simp)
    · unfold decodeLen127Tail at he
      split at he
      · rcases decodeFinish_consumed _ _ _ _ _ _ _ _ he with hn | hn <;> omega
      · exact absurd he (by simp)

theorem header_decode_error_iff (input : List Nat) :
    isProtocolError (decodeHeader true input) = headerErrCond input := by
  match input with
  | [] => rfl
  | [b] => rfl
  | b0 :: b1 :: rest =>
    simp only [decodeHeader, headerErrCond]
    by_cases h1 : b0 % 256 / 16 % 8 ≠ 0
    · simp [h1, isProtocolError]
    · rw [if_neg h1]
      by_cases h2 : validOp (b0 % 256 % 16) = false
      · simp [h2, isProtocolError]
      · rw [if_neg h2]
        have h2t : validOp (b0 % 256 % 16) = true := by
          revert h2; cases validOp (b0 % 256 % 16) <;> simp
        by_cases h3 : 128 ≤ b1 % 256
        · rw [if_pos ⟨trivial, by simp [h3]⟩]
          simp [h3, isProtocolError]
        · rw [if_neg (fun hh => h3 (by simpa using hh.2))]
          by_cases hc : isControlOp (b0 % 256 % 16) = true
          · by_cases h4 : 125 < b1 % 256 % 128
            · rw [if_pos ⟨hc, h4⟩]
              simp [hc, h4, isProtocolError]
            · rw [if_neg (fun hh => h4 hh.2)]
              by_cases h5 : 128 ≤ b0 % 256
              · rw [if_neg (fun hh => by simp [h5] at hh)]
                rw [if_pos (by omega)]
                rw [decodeFinish_not_error]
                have h127 : ¬ (b1 % 256 % 128 = 127) := by omega
                have h5n : ¬ (b0 % 256 < 128) := by omega
                simp [h1, h2t, h3, h4, h127, h5n]
              · rw [if_pos ⟨hc, by simp [h5]⟩]
                have h5y : b0 % 256 < 128 := by omega
                simp [hc, h5y, isProtocolError]
          · rw [if_neg (fun hh => hc hh.1), if_neg (fun hh => hc hh.1)]
            have hcf : isControlOp (b0 % 256 % 16) = false := by
              revert hc; cases isControlOp (b0 % 256 % 16) <;> simp
            by_cases h6 : b1 % 256 % 128 ≤ 125
            · rw [if_pos h6, decodeFinish_not_error]
              have h127 : ¬ (b1 % 256 % 128 = 127) := by omega
              simp [h1, h2t, h3, hcf, h127]
            · rw [if_neg h6]
              by_cases h7 : b1 % 256 % 128 = 126
              · rw [if_pos h7, decodeLen126_not_error]
                have h127 : ¬ (b1 % 256 % 128 = 127) := by omega
                simp [h1, h2t, h3, hcf, h127]
              · have h127 : b1 % 256 % 128 = 127 := by omega
                rw [if_neg h7]
                cases rest with
                | nil => simp [decodeLen127, h1, h2t, h3, hcf, isProtocolError]
                | cons x1 rtail =>
                    simp only [decodeLen127]
                    by_cases h8 : 128 ≤ x1 % 256
                    · rw [if_pos h8]
                      simp [h127, h8, isProtocolError]
                    · rw [if_neg h8, decodeLen127Tail_not_error]
                      simp [h1, h2t, h3, hcf, h8]

theorem header_decode_consumed (input : List Nat) (h : WsHeader) (n : Nat)
    (he : decodeHeader true input = .ok h n) : n ≤ 14 := by
  match input with
  | [] => exact absurd he (by simp [decodeHeader])
  | [b] => exact absurd he (by simp [decodeHeader])
  | b0 :: b1 :: rest =>
    simp only [decodeHeader] at he
    repeat' split at he
    all_goals
      first
        | (rcases decodeFinish_consumed _ _ _ _ _ _ _ _ he with hn | hn <;> omega)
        | (rcases decodeLen126_consumed _ _ _ _ _ _ he with hn | hn <;> omega)
        | (rcases decodeLen127_consumed _ _ _ _ _ _ he with hn | hn <;> omega)
        | exact absurd he (by simp)

/-- Claim C6: the incremental header decoder, consuming at most 14 bytes,
returns a protocol error exactly when the input exhibits a nonzero RSV bit,
an opcode outside 0,1,2,8,9,10, a control frame with payload length > 125
or fin = 0, a 64-bit extended length with its high bit set, or a masked
frame received from the server; on any other well-formed prefix it returns
`needMore` or `ok (header, consumed)` with `consumed ≤ 14`. -/
theorem header_decode_error_conditions :
    (∀ input, isProtocolError (decodeHeader true input) = headerErrCond input)
    ∧ (∀ (input : List Nat) (h : WsHeader) (n : Nat),
        decodeHeader true input = .ok h n → n ≤ 14) :=
  ⟨header_decode_error_iff, header_decode_consumed⟩

/-- Witness for C6: decoding a concrete BINARY-frame prefix `[0x82, 0x02]`
succeeds and consumes 2 ≤ 14 bytes. -/
theorem header_decode_error_conditions_witness : (2 : Nat) ≤ 14 :=
  header_decode_error_conditions.2 [130, 2] ⟨true, 2, false, 2, [0, 0, 0, 0]⟩ 2 (by decide)

theorem feedFuel_congr (strict : Bool) :
    ∀ (fuel : Nat) (s : PState) (bytes : List Nat), bytes.length ≤ fuel →
      feedFuel strict fuel s bytes = feed strict s bytes := by
  intro fuel
  induction fuel using Nat.strong_induction_on with
  | _ fuel ih =>
    intro s bytes hlen
    cases bytes with
    | nil => cases s <;> cases fuel <;> rfl
    | cons b rest =>
      obtain ⟨k, rfl⟩ : ∃ k, fuel = k + 1 := ⟨fuel - 1, by simp at hlen; omega⟩
      have hrk : rest.length ≤ k := by simp at hlen; omega
      cases s with
      | failed r => rfl
      | wantHdr buf =>
        show feedFuel strict (k + 1) _ _ = feedFuel strict (rest.length + 1) _ _
        simp only [feedFuel]
        cases hd : decodeHeader strict (buf ++ [b]) with
        | needMore n =>
            rw [ih k (by omega) _ rest hrk]
            rfl
        | protocolError r => rfl
        | ok h c =>
            dsimp only
            by_cases hp : h.payloadLen = 0
            · rw [if_pos hp, if_pos hp, ih k (by omega) _ rest hrk]; rfl
            · rw [if_neg hp, if_neg hp, ih k (by omega) _ rest hrk]; rfl
      | wantPayload h rem off =>
        show feedFuel strict (k + 1) _ _ = feedFuel strict (rest.length + 1) _ _
        simp only [feedFuel]
        by_cases h0 : rem = 0
        · rw [if_pos h0, if_pos h0]
        · rw [if_neg h0, if_neg h0]
          by_cases hle : rem ≤ (b :: rest).length
          · rw [if_pos hle, if_pos hle]
            have hdlen : ((b :: rest).drop (min rem (b :: rest).length)).length ≤ k := by
              simp
              omega
            have hdlen2 :
                ((b :: rest).drop (min rem (b :: rest).length)).length ≤ rest.length := by
              simp
              omega
            rw [ih k (by omega) _ _ hdlen, ih rest.length (by omega) _ _ hdlen2]
          · rw [if_neg hle, if_neg hle]

theorem feed_nil (strict : Bool) (s : PState) : feed strict s [] = (s, []) := by
  cases s <;> rfl

theorem feed_failed (strict : Bool) (r : DecodeErr) (bytes : List Nat) :
    feed strict (.failed r) bytes = (.failed r, []) := by
  cases bytes <;> rfl

theorem feed_hdr_cons (strict : Bool) (buf : List Nat) (b : Nat) (rest : List Nat) :
    feed strict (.wantHdr buf) (b :: rest) =
      match decodeHeader strict (buf ++ [b]) with
      | .needMore _ => feed strict (.wantHdr (buf ++ [b])) rest
      | .protocolError r => (.failed r, [.parseError r])
      | .ok h _ =>
        if h.payloadLen = 0 then
          ((feed strict (.wantHdr []) rest).1,
            .frameBegin h :: .frameEnd :: (feed strict (.wantHdr []) rest).2)
        else
          ((feed strict (.wantPayload h h.payloadLen 0) rest).1,
            .frameBegin h :: (feed strict (.wantPayload h h.payloadLen 0) rest).2) := by
  show feedFuel strict (rest.length + 1) _ _ = _
  simp only [feedFuel]
  cases hd : decodeHeader strict (buf ++ [b]) with
  | needMore n => rfl
  | protocolError r => rfl
  | ok h c => by_cases hp : h.payloadLen = 0 <;> simp [hp, feed]

theorem feed_payload_cons (strict : Bool) (h : WsHeader) (rem off b : Nat)
    (rest : List Nat) :
    feed strict (.wantPayload h rem off) (b :: rest) =
      if rem = 0 then (.failed .internalState, [.parseError .internalState])
      else if rem ≤ (b :: rest).length then
        ((feed strict (.wantHdr []) ((b :: rest).drop rem)).1,
          .framePayload (maskBytesAt h.maskKeyBytes off ((b :: rest).take rem))
            :: .frameEnd :: (feed strict (.wantHdr []) ((b :: rest).drop rem)).2)
      else
        (.wantPayload h (rem - (b :: rest).length) (off + (b :: rest).length),
          [.framePayload (maskBytesAt h.maskKeyBytes off (b :: rest))]) := by
  show feedFuel strict (rest.length + 1) _ _ = _
  simp only [feedFuel]
  by_cases h0 : rem = 0
  · simp [h0]
  · rw [if_neg h0, if_neg h0]
    by_cases hle : rem ≤ (b :: rest).length
    · rw [if_pos hle, if_pos hle]
      have hmin : min rem (b :: rest).length = rem := Nat.min_eq_left hle
      rw [hmin]
      rw [feedFuel_congr strict rest.length (.wantHdr []) ((b :: rest).drop rem)
            (by simp; omega)]
    · rw [if_neg hle, if_neg hle]
      have hmin : min rem (b :: rest).length = (b :: rest).length :=
        Nat.min_eq_right (by omega)
      rw [hmin]
      rw [List.take_of_length_le (by omega)]

theorem normEvents_nil : normEvents [] = [] := rfl

theorem normEvents_cons (e : WsEvent) (es : List WsEvent) :
    normEvents (e :: es) = splitPayload e ++ normEvents es := by
  simp [normEvents]

theorem normEvents_append (a b : List WsEvent) :
    normEvents (a ++ b) = normEvents a ++ normEvents b := by
  simp [normEvents]

theorem splitPayload_chunk_append (a b : List Nat) :
    splitPayload (.framePayload (a ++ b))
      = splitPayload (.framePayload a) ++ splitPayload (.framePayload b) := by
  simp [splitPayload]

theorem feed_append_aux (strict : Bool) :
    ∀ (N : Nat) (s : PState) (xs ys : List Nat), xs.length ≤ N →
      (feed strict s (xs ++ ys)).1 = (feed strict (feed strict s xs).1 ys).1
      ∧ normEvents (feed strict s (xs ++ ys)).2
          = normEvents (feed strict s xs).2
            ++ normEvents (feed strict (feed strict s xs).1 ys).2 := by
  intro N
  induction N with
  | zero =>
      intro s xs ys hlen
      have hx : xs = [] := List.length_eq_zero.mp (by omega)
      subst hx
      simp [feed_nil, normEvents]
  | succ N ih =>
      intro s xs ys hlen
      cases xs with
      | nil => simp [feed_nil, normEvents]
      | cons b xs1 =>
        have hlen1 : xs1.length ≤ N := by simp at hlen; omega
        cases s with
        | failed r => simp [feed_failed, normEvents]
        | wantHdr buf =>
          rw [List.cons_append, feed_hdr_cons strict buf b (xs1 ++ ys),
              feed_hdr_cons strict buf b xs1]
          cases hd : decodeHeader strict (buf ++ [b]) with
          | needMore n =>
              dsimp only
              exact ih _ xs1 ys hlen1
          | protocolError r =>
              dsimp only
              simp [feed_failed, normEvents]
          | ok h c =>
              dsimp only
              by_cases hp : h.payloadLen = 0
              · rw [if_pos hp, if_pos hp]
                obtain ⟨ih1, ih2⟩ := ih (.wantHdr []) xs1 ys hlen1
                refine ⟨ih1, ?_⟩
                simp only [normEvents_cons, splitPayload, ih2, List.append_assoc]
              · rw [if_neg hp, if_neg hp]
                obtain ⟨ih1, ih2⟩ := ih (.wantPayload h h.payloadLen 0) xs1 ys hlen1
                refine ⟨ih1, ?_⟩
                simp only [normEvents_cons, splitPayload, ih2, List.append_assoc]
        | wantPayload h rem off =>
          rw [List.cons_append, feed_payload_cons strict h rem off b (xs1 ++ ys),
              feed_payload_cons strict h rem off b xs1]
          by_cases h0 : rem = 0
          · rw [if_pos h0, if_pos h0]
            simp [feed_failed, normEvents]
          · rw [if_neg h0, if_neg h0]
            by_cases hA : rem ≤ (b :: xs1).length
            · have hA2 : rem ≤ (b :: (xs1 ++ ys)).length := by
                simp at hA ⊢; omega
              rw [if_pos hA, if_pos hA2]
              have htk : (b :: (xs1 ++ ys)).take rem = (b :: xs1).take rem := by
                rw [show b :: (xs1 ++ ys) = (b :: xs1) ++ ys from rfl,
                    List.take_append_of_le_length hA]
              have hdp : (b :: (xs1 ++ ys)).drop rem = (b :: xs1).drop rem ++ ys := by
                rw [show b :: (xs1 ++ ys) = (b :: xs1) ++ ys from rfl,
                    List.drop_append_of_le_length hA]
              rw [htk, hdp]
              have hdlen : ((b :: xs1).drop rem).length ≤ N := by
                simp; simp at hlen; omega
              obtain ⟨ih1, ih2⟩ := ih (.wantHdr []) ((b :: xs1).drop rem) ys hdlen
              refine ⟨ih1, ?_⟩
              simp only [normEvents_cons, splitPayload, ih2, List.append_assoc]
            · rw [if_neg hA]
              by_cases hB : rem ≤ (b :: (xs1 ++ ys)).length
              · rw [if_pos hB]
                cases ys with
                | nil => simp at hA hB; omega
                | cons y ys1 =>
                  rw [feed_payload_cons strict h (rem - (b :: xs1).length)
                        (off + (b :: xs1).length) y ys1]
                  have hr2 : ¬ (rem - (b :: xs1).length = 0) := by
                    simp at hA; simp; omega
                  rw [if_neg hr2]
                  have hr3 : rem - (b :: xs1).length ≤ (y :: ys1).length := by
                    simp at hB hA ⊢; omega
                  rw [if_pos hr3]
                  have htk : (b :: (xs1 ++ y :: ys1)).take rem
                      = (b :: xs1) ++ (y :: ys1).take (rem - (b :: xs1).length) := by
                    rw [show b :: (xs1 ++ y :: ys1) = (b :: xs1) ++ (y :: ys1) from rfl,
                        List.take_append_eq_append_take,
                        List.take_of_length_le (by simp at hA ⊢; omega)]
                  have hdp : (b :: (xs1 ++ y :: ys1)).drop rem
                      = (y :: ys1).drop (rem - (b :: xs1).length) := by
                    rw [show b :: (xs1 ++ y :: ys1) = (b :: xs1) ++ (y :: ys1) from rfl,
                        List.drop_append_eq_append_drop,
                        List.drop_eq_nil_of_le (by simp at hA ⊢; omega)]
                    simp
                  rw [htk, hdp, maskBytesAt_append]
                  refine ⟨rfl, ?_⟩
                  simp only [normEvents_cons, splitPayload_chunk_append,
                    List.append_assoc, splitPayload]
                  simp [normEvents]
              · rw [if_neg hB]
                cases ys with
                | nil =>
                  simp [feed_nil, normEvents]
                | cons y ys1 =>
                  rw [feed_payload_cons strict h (rem - (b :: xs1).length)
                        (off + (b :: xs1).length) y ys1]
                  have hr2 : ¬ (rem - (b :: xs1).length = 0) := by
                    simp at hA; simp; omega
                  rw [if_neg hr2]
                  have hr3 : ¬ (rem - (b :: xs1).length ≤ (y :: ys1).length) := by
                    simp at hB hA ⊢; omega
                  rw [if_neg hr3]
                  have htk : b :: (xs1 ++ y :: ys1) = (b :: xs1) ++ (y :: ys1) := rfl
                  rw [htk, maskBytesAt_append]
                  constructor
                  · have e1 : rem - ((b :: xs1) ++ y :: ys1).length
                        = rem - (b :: xs1).length - (y :: ys1).length := by
                      simp; omega
                    have e2 : off + ((b :: xs1) ++ y :: ys1).length
                        = off + (b :: xs1).length + (y :: ys1).length := by
                      simp; omega
                    rw [e1, e2]
                  · simp only [normEvents_cons, splitPayload_chunk_append,
                      List.append_assoc, splitPayload]
                    simp [normEvents]

theorem feed_append (strict : Bool) (s : PState) (xs ys : List Nat) :
    (feed strict s (xs ++ ys)).1 = (feed strict (feed strict s xs).1 ys).1
    ∧ normEvents (feed strict s (xs ++ ys)).2
        = normEvents (feed strict s xs).2
          ++ normEvents (feed strict (feed strict s xs).1 ys).2 :=
  feed_append_aux strict xs.length s xs ys (le_refl _)

theorem feedAll_join (strict : Bool) :
    ∀ (chunks : List (List Nat)) (s : PState),
      (feedAll strict s chunks).1 = (feed strict s chunks.flatten).1
      ∧ normEvents (feedAll strict s chunks).2
          = normEvents (feed strict s chunks.flatten).2 := by
  intro chunks
  induction chunks with
  | nil => intro s; simp [feedAll, feed_nil, normEvents]
  | cons c cs ih =>
    intro s
    obtain ⟨a1, a2⟩ := feed_append strict s c cs.flatten
    obtain ⟨i1, i2⟩ := ih (feed strict s c).1
    constructor
    · simp only [feedAll, List.flatten_cons]
      rw [a1, ← i1]
    · simp only [feedAll, List.flatten_cons]
      rw [normEvents_append, a2, i2]

/-- Claim C2 (amended): feeding a valid byte stream in arbitrary chunks
(including 1-byte splits and zero-byte feeds) yields the same final parser
state as feeding it in a single call, and the same event sequence up to
payload-chunk granularity (normalizing payload chunks to single bytes);
the raw event sequences may differ only in how payload bytes are grouped
into `framePayload` chunks.  A zero-byte feed is a legal no-op. -/
theorem parser_chunking_invariance (strict : Bool) (s : PState)
    (chunks : List (List Nat)) :
    (feedAll strict s chunks).1 = (feed strict s chunks.flatten).1
    ∧ normEvents (feedAll strict s chunks).2 = normEvents (feed strict s chunks.flatten).2
    ∧ (∀ t : PState, feed strict t [] = (t, [])) :=
  ⟨(feedAll_join strict chunks s).1, (feedAll_join strict chunks s).2, feed_nil strict⟩

/-- Counterexample to C2 as literally stated: for the valid unmasked BINARY
frame `[0x82, 0x02, 0x0A, 0x0B]`, feeding byte-by-byte yields payload
events `[0x0A]`, `[0x0B]` while a single feed yields one payload chunk
`[0x0A, 0x0B]`, so the raw event sequences differ (they agree only after
normalization, as proved in `parser_chunking_invariance`). -/
theorem parser_chunking_raw_events_differ :
    (feedAll true initPState [[130], [2], [10], [11]]).2
      ≠ (feed true initPState [130, 2, 10, 11]).2 := by
  decide

/-- Claim C8: the assembler keeps at most one message in progress
(`openOp : Option Nat`); on `frame_begin`, TEXT/BINARY is accepted exactly
when no message is open and CONT exactly when one is, the other cases
being protocol errors that initiate close 1002; in particular a lone
`CONT fin=1 "x"` frame from the server (scenario S4) produces exactly a
close with status 1002. -/
theorem inbound_sequencing_invariant :
    (∀ (st : AsmState) (h : WsHeader), st.dead = false → st.openOp = none →
        (h.opcode = 1 ∨ h.opcode = 2) →
        asmStep st (.frameBegin h)
          = ({ st with openOp := some h.opcode, acc := [], cur := some h },
             [.msgBegin h.opcode]))
    ∧ (∀ (st : AsmState) (h : WsHeader) (op : Nat), st.dead = false →
        st.openOp = some op → (h.opcode = 1 ∨ h.opcode = 2) →
        asmStep st (.frameBegin h) = ({ st with dead := true }, [.closeInit 1002]))
    ∧ (∀ (st : AsmState) (h : WsHeader), st.dead = false → st.openOp = none →
        h.opcode = 0 →
        asmStep st (.frameBegin h) = ({ st with dead := true }, [.closeInit 1002]))
    ∧ (∀ (st : AsmState) (h : WsHeader) (op : Nat), st.dead = false →
        st.openOp = some op → h.opcode = 0 →
        asmStep st (.frameBegin h) = ({ st with cur := some h }, []))
    ∧ wsReceive true [128, 1, 120] = [.closeInit 1002] := by
  refine ⟨?_, ?_, ?_, ?_, by decide⟩
  · intro st h hd ho hop
    rcases hop with h1 | h1 <;> simp [asmStep, hd, ho, h1, isControlOp]
  · intro st h op hd ho hop
    rcases hop with h1 | h1 <;> simp [asmStep, hd, ho, h1, isControlOp]
  · intro st h hd ho hop
    simp [asmStep, hd, ho, hop, isControlOp]
  · intro st h op hd ho hop
    simp [asmStep, hd, ho, hop, isControlOp]

/-- Witness for C8: a CONT frame beginning with no open message, at the
initial assembler state, initiates close 1002. -/
theorem inbound_sequencing_invariant_witness :
    asmStep initAsm (.frameBegin ⟨true, 0, false, 1, [0, 0, 0, 0]⟩)
      = ({ initAsm with dead := true }, [.closeInit 1002]) :=
  inbound_sequencing_invariant.2.2.1 initAsm ⟨true, 0, false, 1, [0, 0, 0, 0]⟩ rfl rfl rfl

theorem asmRun_append (st : AsmState) (a b : List WsEvent) :
    asmRun st (a ++ b)
      = ((asmRun (asmRun st a).1 b).1, (asmRun st a).2 ++ (asmRun (asmRun st a).1 b).2) := by
  induction a generalizing st with
  | nil => simp [asmRun]
  | cons e es ih => simp [asmRun, ih]

theorem asmRun_first_frame (st : AsmState) (h : WsHeader) (c : List Nat)
    (hd : st.dead = false) (ho : st.openOp = none)
    (hop : h.opcode = 1 ∨ h.opcode = 2) (hfin : h.fin = false) :
    asmRun st (dataFrameEvents h c)
      = ({ st with openOp := some h.opcode, acc := c, cur := none },
         .msgBegin h.opcode :: (dataOutEvents c ++ [.frameEnd])) := by
  by_cases hc : c = []
  · subst hc
    rcases hop with h1 | h1 <;>
      simp [dataFrameEvents, dataOutEvents, asmRun, asmStep, hd, ho, h1, isControlOp, hfin]
  · have hce : c.isEmpty = false := by simpa using hc
    rcases hop with h1 | h1 <;>
      simp [dataFrameEvents, dataOutEvents, asmRun, asmStep, hd, ho, h1, isControlOp,
        hfin, hce]

theorem asmRun_mid_cont (st : AsmState) (h : WsHeader) (c : List Nat) (op : Nat)
    (hd : st.dead = false) (ho : st.openOp = some op)
    (hop : h.opcode = 0) (hfin : h.fin = false) :
    asmRun st (dataFrameEvents h c)
      = ({ st with acc := st.acc ++ c, cur := none }, dataOutEvents c ++ [.frameEnd]) := by
  by_cases hc : c = []
  · subst hc
    simp [dataFrameEvents, dataOutEvents, asmRun, asmStep, hd, ho, hop, isControlOp, hfin]
  · have hce : c.isEmpty = false := by simpa using hc
    simp [dataFrameEvents, dataOutEvents, asmRun, asmStep, hd, ho, hop, isControlOp,
      hfin, hce]

theorem asmRun_last_cont (st : AsmState) (h : WsHeader) (c : List Nat) (op : Nat)
    (hd : st.dead = false) (ho : st.openOp = some op)
    (hop : h.opcode = 0) (hfin : h.fin = true) :
    asmRun st (dataFrameEvents h c)
      = (if op = 1 ∧ validUtf8 (st.acc ++ c) = false then
           ({ st with openOp := none, acc := [], cur := none, dead := true },
            dataOutEvents c ++ [.frameEnd, .closeInit 1007])
         else
           ({ st with openOp := none, acc := [], cur := none },
            dataOutEvents c ++ [.frameEnd, .message op (st.acc ++ c)])) := by
  by_cases hc : c = []
  · subst hc
    by_cases hu : op = 1 ∧ validUtf8 (st.acc ++ []) = false
    · rw [if_pos hu]
      obtain ⟨hu1, hu2⟩ := hu
      simp at hu2
      simp [dataFrameEvents, dataOutEvents, asmRun, asmStep, hd, ho, hop, isControlOp,
        hfin, hu1, hu2]
    · rw [if_neg hu]
      simp at hu
      simp [dataFrameEvents, dataOutEvents, asmRun, asmStep, hd, ho, hop, isControlOp,
        hfin, hu]
      exact hu
  · have hce : c.isEmpty = false := by simpa using hc
    by_cases hu : op = 1 ∧ validUtf8 (st.acc ++ c) = false
    · rw [if_pos hu]
      obtain ⟨hu1, hu2⟩ := hu
      simp [dataFrameEvents, dataOutEvents, asmRun, asmStep, hd, ho, hop, isControlOp,
        hfin, hce, hu1, hu2]
    · rw [if_neg hu]
      simp only [not_and] at hu
      by_cases h1 : op = 1
      · have hu2 : ¬ (validUtf8 (st.acc ++ c) = false) := hu h1
        simp [dataFrameEvents, dataOutEvents, asmRun, asmStep, hd, ho, hop, isControlOp,
          hfin, hce, h1, hu2]
      · simp [dataFrameEvents, dataOutEvents, asmRun, asmStep, hd, ho, hop, isControlOp,
          hfin, hce, h1]

theorem asmRun_solo_frame (st : AsmState) (h : WsHeader) (c : List Nat)
    (hd : st.dead = false) (ho : st.openOp = none)
    (hop : h.opcode = 1 ∨ h.opcode = 2) (hfin : h.fin = true) :
    asmRun st (dataFrameEvents h c)
      = (if h.opcode = 1 ∧ validUtf8 c = false then
           ({ st with openOp := none, acc := [], cur := none, dead := true },
            .msgBegin h.opcode :: (dataOutEvents c ++ [.frameEnd, .closeInit 1007]))
         else
           ({ st with openOp := none, acc := [], cur := none },
            .msgBegin h.opcode :: (dataOutEvents c ++ [.frameEnd, .message h.opcode c]))) := by
  by_cases hc : c = []
  · subst hc
    by_cases hu : h.opcode = 1 ∧ validUtf8 ([] : List Nat) = false
    · rw [if_pos hu]
      obtain ⟨hu1, hu2⟩ := hu
      exact absurd hu2 (by decide)
    · rw [if_neg hu]
      have hv : validUtf8 ([] : List Nat) = true := by decide
      rcases hop with h1 | h1 <;>
        simp [dataFrameEvents, dataOutEvents, asmRun, asmStep, hd, ho, h1, isControlOp,
          hfin, hv]
  · have hce : c.isEmpty = false := by simpa using hc
    by_cases hu : h.opcode = 1 ∧ validUtf8 c = false
    · rw [if_pos hu]
      obtain ⟨hu1, hu2⟩ := hu
      simp [dataFrameEvents, dataOutEvents, asmRun, asmStep, hd, ho, hu1, isControlOp,
        hfin, hce, hu2]
    · rw [if_neg hu]
      simp only [not_and] at hu
      rcases hop with h1 | h1
      · have hu2 : ¬ (validUtf8 c = false) := hu h1
        simp [dataFrameEvents, dataOutEvents, asmRun, asmStep, hd, ho, h1, isControlOp,
          hfin, hce, hu2]
      · simp [dataFrameEvents, dataOutEvents, asmRun, asmStep, hd, ho, h1, isControlOp,
          hfin, hce]

theorem asmRun_cont_frames :
    ∀ (fs : List (WsHeader × List Nat)), contFramesShape fs = true →
      ∀ (st : AsmState) (op : Nat), st.dead = false → st.openOp = some op →
        asmRun st (framesEvents fs)
          = (if op = 1 ∧ validUtf8 (st.acc ++ framesPayload fs) = false then
               ({ st with openOp := none, acc := [], cur := none, dead := true },
                contOuts fs ++ [.closeInit 1007])
             else
               ({ st with openOp := none, acc := [], cur := none },
                contOuts fs ++ [.message op (st.acc ++ framesPayload fs)])) := by
  intro fs
  induction fs with
  | nil => intro hs; simp [contFramesShape] at hs
  | cons f fs2 ih =>
    obtain ⟨h, c⟩ := f
    cases fs2 with
    | nil =>
      intro hs st op hd ho
      simp only [contFramesShape, Bool.and_eq_true, beq_iff_eq] at hs
      have hrun := asmRun_last_cont st h c op hd ho hs.1 hs.2
      simp only [framesEvents, List.append_nil, framesPayload, contOuts, List.map_cons,
        List.map_nil, List.flatten]
      rw [hrun]
      by_cases hu : op = 1 ∧ validUtf8 (st.acc ++ c) = false
      · rw [if_pos hu, if_pos (by simpa using hu)]
        simp
      · rw [if_neg hu, if_neg (by simpa using hu)]
        simp
    | cons f2 fs3 =>
      intro hs st op hd ho
      have hs2 : contFramesShape (f2 :: fs3) = true := by
        simp only [contFramesShape, Bool.and_eq_true, beq_iff_eq] at hs ⊢
        exact hs.2
      have hsh : h.opcode = 0 ∧ h.fin = false := by
        simp only [contFramesShape, Bool.and_eq_true, beq_iff_eq,
          Bool.not_eq_true'] at hs
        exact ⟨hs.1.1, hs.1.2⟩
      show asmRun st (dataFrameEvents h c ++ framesEvents (f2 :: fs3)) = _
      rw [asmRun_append, asmRun_mid_cont st h c op hd ho hsh.1 hsh.2]
      have ih2 := ih hs2 { st with acc := st.acc ++ c, cur := none } op (by simp [hd])
        (by simp [ho])
      rw [ih2]
      have hacc : st.acc ++ c ++ framesPayload (f2 :: fs3)
          = st.acc ++ framesPayload ((h, c) :: f2 :: fs3) := by
        simp [framesPayload, List.append_assoc]
      by_cases hu : op = 1 ∧ validUtf8 (st.acc ++ framesPayload ((h, c) :: f2 :: fs3)) = false
      · rw [if_pos (by rw [hacc]; exact hu), if_pos hu]
        simp [contOuts, List.append_assoc, hacc]
      · rw [if_neg (by rw [hacc]; exact hu), if_neg hu]
        simp [contOuts, List.append_assoc, hacc]

theorem serverMsgFrames_shape (cs : List (List Nat)) (hne : cs ≠ []) :
    contFramesShape (serverMsgFrames 0 cs) = true := by
  induction cs with
  | nil => exact absurd rfl hne
  | cons c cs2 ih =>
    cases cs2 with
    | nil => simp [serverMsgFrames, contFramesShape, serverDataHeader]
    | cons c2 cs3 =>
      have ih2 := ih (by simp)
      simp only [serverMsgFrames] at ih2 ⊢
      cases cs3 with
      | nil =>
          simp [contFramesShape, serverDataHeader] at ih2 ⊢
      | cons c3 cs4 =>
          simp [contFramesShape, serverDataHeader] at ih2 ⊢
          all_goals exact ih2

theorem serverMsgFrames_payload (op : Nat) (cs : List (List Nat)) :
    framesPayload (serverMsgFrames op cs) = cs.flatten := by
  induction cs generalizing op with
  | nil => rfl
  | cons c cs2 ih =>
    cases cs2 with
    | nil => simp [serverMsgFrames, framesPayload]
    | cons c2 cs3 =>
      simp only [serverMsgFrames, framesPayload, List.map_cons, List.flatten]
      have := ih 0
      simp only [framesPayload] at this
      rw [this]
      simp

theorem serverMsgFrames_contOuts (op : Nat) (cs : List (List Nat)) :
    contOuts (serverMsgFrames op cs)
      = (cs.map (fun c => dataOutEvents c ++ [AsmOut.frameEnd])).flatten := by
  induction cs generalizing op with
  | nil => rfl
  | cons c cs2 ih =>
    cases cs2 with
    | nil => simp [serverMsgFrames, contOuts]
    | cons c2 cs3 =>
      simp only [serverMsgFrames, contOuts, List.map_cons, List.flatten]
      have := ih 0
      simp only [contOuts] at this
      rw [this]
      simp

theorem asmRun_server_msg (op : Nat) (hop : op = 1 ∨ op = 2)
    (cs : List (List Nat)) (hne : cs ≠ []) :
    asmRun initAsm (framesEvents (serverMsgFrames op cs))
      = (if op = 1 ∧ validUtf8 cs.flatten = false then
           ({ initAsm with dead := true }, msgRunOuts op cs ++ [.closeInit 1007])
         else (initAsm, msgRunOuts op cs ++ [.message op cs.flatten])) := by
  cases cs with
  | nil => exact absurd rfl hne
  | cons c cs2 =>
    cases cs2 with
    | nil =>
      have hrun := asmRun_solo_frame initAsm (serverDataHeader true op c.length) c
        rfl rfl (by simpa [serverDataHeader] using hop) rfl
      simp only [serverMsgFrames, framesEvents, List.append_nil]
      rw [hrun]
      simp only [serverDataHeader]
      by_cases hu : op = 1 ∧ validUtf8 ([c] : List (List Nat)).flatten = false
      · rw [if_pos (by simpa using hu), if_pos hu]
        simp [initAsm, msgRunOuts, dataOutEvents]
      · rw [if_neg (by simpa using hu), if_neg hu]
        simp [initAsm, msgRunOuts, dataOutEvents]
    | cons c2 cs3 =>
      show asmRun initAsm (dataFrameEvents (serverDataHeader false op c.length) c
          ++ framesEvents (serverMsgFrames 0 (c2 :: cs3))) = _
      rw [asmRun_append,
          asmRun_first_frame initAsm (serverDataHeader false op c.length) c rfl rfl
            (by simpa [serverDataHeader] using hop) rfl]
      have hshape := serverMsgFrames_shape (c2 :: cs3) (by simp)
      simp only [serverDataHeader]
      rw [asmRun_cont_frames (serverMsgFrames 0 (c2 :: cs3)) hshape _ op rfl rfl]
      rw [serverMsgFrames_payload 0 (c2 :: cs3), serverMsgFrames_contOuts 0 (c2 :: cs3)]
      have hacc : (c ++ (c2 :: cs3).flatten) = ((c :: c2 :: cs3) : List (List Nat)).flatten := by
        simp
      by_cases hu : op = 1 ∧ validUtf8 (((c :: c2 :: cs3) : List (List Nat)).flatten) = false
      · rw [if_pos (by rw [hacc]; exact hu), if_pos hu]
        simp [initAsm, msgRunOuts, hacc]
      · rw [if_neg (by rw [hacc]; exact hu), if_neg hu]
        simp [initAsm, msgRunOuts, hacc]

theorem mem_msgRunOuts_cases (o : AsmOut) (op : Nat) (cs : List (List Nat)) :
    o ∈ msgRunOuts op cs →
      o = .msgBegin op ∨ o = .frameEnd ∨ ∃ c, o = .frameData c := by
  intro hm
  simp only [msgRunOuts, List.mem_cons, List.mem_flatten, List.mem_map] at hm
  rcases hm with hm | ⟨l, ⟨c, hc, rfl⟩, hol⟩
  · exact Or.inl hm
  · simp only [dataOutEvents] at hol
    by_cases hce : c.isEmpty
    · simp [hce] at hol
      exact Or.inr (Or.inl hol)
    · simp [hce] at hol
      rcases hol with hol | hol
      · exact Or.inr (Or.inr ⟨c, hol⟩)
      · exact Or.inr (Or.inl hol)

/-- Claim C7: a received TEXT message is validated as UTF-8 after its final
frame: an ill-formed payload (such as `0xC0 0xAF`) initiates close 1007 and
the message is not delivered, while a well-formed payload is delivered via
`on_message` with no such close; concretely, a single TEXT frame carrying
`0xC0 0xAF` yields exactly begin/data/end callbacks followed by close 1007. -/
theorem text_utf8_validation (cs : List (List Nat)) (hne : cs ≠ []) :
    (validUtf8 cs.flatten = true →
        AsmOut.message 1 cs.flatten
            ∈ (asmRun initAsm (framesEvents (serverMsgFrames 1 cs))).2
          ∧ AsmOut.closeInit 1007
            ∉ (asmRun initAsm (framesEvents (serverMsgFrames 1 cs))).2)
    ∧ (validUtf8 cs.flatten = false →
        AsmOut.closeInit 1007
            ∈ (asmRun initAsm (framesEvents (serverMsgFrames 1 cs))).2
          ∧ ∀ (op2 : Nat) (p : List Nat),
              AsmOut.message op2 p
                ∉ (asmRun initAsm (framesEvents (serverMsgFrames 1 cs))).2)
    ∧ wsReceive true [129, 2, 192, 175]
        = [.msgBegin 1, .frameData [192, 175], .frameEnd, .closeInit 1007] := by
  refine ⟨?_, ?_, by decide⟩
  · intro hv
    rw [asmRun_server_msg 1 (Or.inl rfl) cs hne, if_neg (by simp [hv])]
    constructor
    · simp
    · intro hmem
      simp only [List.mem_append] at hmem
      rcases hmem with hmem | hmem
      · rcases mem_msgRunOuts_cases _ _ _ hmem with h | h | ⟨c, h⟩ <;> simp at h
      · simp at hmem
  · intro hv
    rw [asmRun_server_msg 1 (Or.inl rfl) cs hne, if_pos ⟨rfl, hv⟩]
    constructor
    · simp
    · intro op2 p hmem
      simp only [List.mem_append] at hmem
      rcases hmem with hmem | hmem
      · rcases mem_msgRunOuts_cases _ _ _ hmem with h | h | ⟨c, h⟩ <;> simp at h
      · simp at hmem

/-- Witness for C7: the valid-UTF-8 text message `"hi"` (bytes 104, 105)
received as a single frame is delivered and does not trigger close 1007. -/
theorem text_utf8_validation_witness :
    AsmOut.message 1 ([[104, 105]] : List (List Nat)).flatten
        ∈ (asmRun initAsm (framesEvents (serverMsgFrames 1 [[104, 105]]))).2
      ∧ AsmOut.closeInit 1007
        ∉ (asmRun initAsm (framesEvents (serverMsgFrames 1 [[104, 105]]))).2 :=
  (text_utf8_validation [[104, 105]] (by decide)).1 (by decide)

theorem fragSplitF_congr (S : Nat) (hS : 1 ≤ S) :
    ∀ (fuel : Nat) (p : List Nat), p.length ≤ fuel → fragSplitF S fuel p = fragSplit S p := by
  intro fuel
  induction fuel using Nat.strong_induction_on with
  | _ fuel ih =>
    intro p hlen
    match fuel with
    | 0 =>
        have hp : p = [] := List.length_eq_zero.mp (by omega)
        subst hp
        rfl
    | k + 1 =>
        show (if p.length ≤ S then [p] else p.take S :: fragSplitF S k (p.drop S))
            = fragSplit S p
        by_cases hle : p.length ≤ S
        · rw [if_pos hle]
          unfold fragSplit
          match hp : p.length with
          | 0 => rfl
          | m + 1 =>
              simp only [fragSplitF]
              rw [if_pos (by omega)]
        · rw [if_neg hle]
          obtain ⟨m, hm⟩ : ∃ m, p.length = m + 1 := ⟨p.length - 1, by omega⟩
          have hdrop : (p.drop S).length ≤ k := by simp; omega
          have hdropm : (p.drop S).length ≤ m := by simp; omega
          rw [ih k (by omega) _ hdrop]
          unfold fragSplit
          rw [hm]
          show _ = (if p.length ≤ S then [p] else p.take S :: fragSplitF S m (p.drop S))
          rw [if_neg hle, ih m (by omega) _ hdropm]
          rfl

theorem fragSplit_eq (S : Nat) (hS : 1 ≤ S) (p : List Nat) :
    fragSplit S p = if p.length ≤ S then [p] else p.take S :: fragSplit S (p.drop S) := by
  by_cases hle : p.length ≤ S
  · rw [if_pos hle]
    unfold fragSplit
    match hp : p.length with
    | 0 => rfl
    | m + 1 =>
        simp only [fragSplitF]
        rw [if_pos (by omega)]
  · rw [if_neg hle]
    unfold fragSplit
    obtain ⟨m, hm⟩ : ∃ m, p.length = m + 1 := ⟨p.length - 1, by omega⟩
    rw [hm]
    show (if p.length ≤ S then [p] else p.take S :: fragSplitF S m (p.drop S)) = _
    rw [if_neg hle, fragSplitF_congr S hS m (p.drop S) (by simp; omega)]
    rfl

theorem fragSplit_ne_nil (S : Nat) (p : List Nat) : fragSplit S p ≠ [] := by
  unfold fragSplit
  cases hp : p.length with
  | zero => simp [fragSplitF]
  | succ m =>
      simp only [fragSplitF]
      split <;> simp

theorem fragSplit_flatten (S : Nat) (hS : 1 ≤ S) :
    ∀ (N : Nat) (p : List Nat), p.length ≤ N → (fragSplit S p).flatten = p := by
  intro N
  induction N with
  | zero =>
      intro p hlen
      have hp : p = [] := List.length_eq_zero.mp (by omega)
      subst hp; rfl
  | succ N ih =>
      intro p hlen
      rw [fragSplit_eq S hS p]
      by_cases hle : p.length ≤ S
      · simp [hle]
      · rw [if_neg hle]
        simp only [List.flatten_cons]
        rw [ih (p.drop S) (by simp; omega)]
        exact List.take_append_drop S p

theorem fragSplit_chunk_le (S : Nat) (hS : 1 ≤ S) :
    ∀ (N : Nat) (p : List Nat), p.length ≤ N →
      ∀ c ∈ fragSplit S p, c.length ≤ p.length := by
  intro N
  induction N with
  | zero =>
      intro p hlen c hc
      have hp : p = [] := List.length_eq_zero.mp (by omega)
      subst hp
      simp [fragSplit, fragSplitF] at hc
      simp [hc]
  | succ N ih =>
      intro p hlen c hc
      rw [fragSplit_eq S hS p] at hc
      by_cases hle : p.length ≤ S
      · simp [hle] at hc; simp [hc]
      · rw [if_neg hle] at hc
        rcases List.mem_cons.mp hc with rfl | hc2
        · simp
        · have := ih (p.drop S) (by simp; omega) c hc2
          simp at this
          omega

theorem annotateFrames_length (op : Nat) (cs : List (List Nat)) :
    (annotateFrames op cs).length = cs.length := by
  induction cs generalizing op with
  | nil => rfl
  | cons c cs2 ih =>
      cases cs2 with
      | nil => rfl
      | cons c2 cs3 => simp [annotateFrames, ih 0]

theorem annotateFrames_getD (op : Nat) (cs : List (List Nat)) :
    ∀ i, i < cs.length →
      (annotateFrames op cs).getD i (true, 0, [])
        = (decide (i = cs.length - 1), (if i = 0 then op else 0), cs.getD i []) := by
  induction cs generalizing op with
  | nil => intro i hi; simp at hi
  | cons c cs2 ih =>
      cases cs2 with
      | nil =>
          intro i hi
          have hi0 : i = 0 := by simp at hi; omega
          subst hi0
          simp [annotateFrames]
      | cons c2 cs3 =>
          intro i hi
          cases i with
          | zero => simp [annotateFrames]
          | succ j =>
              have hj : j < (c2 :: cs3).length := by simp at hi ⊢; omega
              have := ih 0 j hj
              simp only [annotateFrames, List.getD_cons_succ]
              rw [this]
              have hd : decide (j = (c2 :: cs3).length - 1)
                  = decide (j + 1 = (c :: c2 :: cs3).length - 1) := by
                simp only [List.length_cons]
                exact decide_eq_decide.mpr (by omega)
              rw [hd]
              simp

/-- Claim C5: single-shot fragmentation shape — with `max_frame_size = 0`
or a payload that fits, the sender emits exactly one frame with fin=1 and
the data opcode; otherwise it emits N > 1 frames whose first has the data
opcode with fin=0, whose middles are CONT with fin=0, and whose last alone
is CONT with fin=1; concretely, text `"Hello"` with `max_frame_size = 3`
yields exactly `TEXT fin=0 "Hel"` then `CONT fin=1 "lo"`. -/
theorem single_shot_fragmentation (S : Nat) (binary : Bool) (p : List Nat) :
    ((S = 0 ∨ p.length ≤ S) →
        ws_send_frames S binary p = [(true, (if binary then 2 else 1), p)])
    ∧ (S ≠ 0 → S < p.length →
        1 < (ws_send_frames S binary p).length
        ∧ ∀ i, i < (ws_send_frames S binary p).length →
            ((ws_send_frames S binary p).getD i (true, 0, [])).1
                = decide (i = (ws_send_frames S binary p).length - 1)
            ∧ ((ws_send_frames S binary p).getD i (true, 0, [])).2.1
                = (if i = 0 then (if binary then 2 else 1) else 0))
    ∧ ws_send_frames 3 false [72, 101, 108, 108, 111]
        = [(false, 1, [72, 101, 108]), (true, 0, [108, 111])] := by
  refine ⟨?_, ?_, by decide⟩
  · intro hfit
    unfold ws_send_frames
    rcases hfit with h0 | hle
    · rw [if_pos h0]; rfl
    · by_cases h0 : S = 0
      · rw [if_pos h0]; rfl
      · rw [if_neg h0, fragSplit_eq S (by omega) p, if_pos hle]
        rfl
  · intro h0 hlt
    have hS : 1 ≤ S := by omega
    have hsp : ws_send_frames S binary p
        = annotateFrames (if binary then 2 else 1) (fragSplit S p) := by
      unfold ws_send_frames
      rw [if_neg h0]
    have hlen2 : 2 ≤ (fragSplit S p).length := by
      rw [fragSplit_eq S hS p, if_neg (by omega)]
      have := fragSplit_ne_nil S (p.drop S)
      cases hfs : fragSplit S (p.drop S) with
      | nil => exact absurd hfs this
      | cons a as => simp
    constructor
    · rw [hsp, annotateFrames_length]
      omega
    · intro i hi
      rw [hsp, annotateFrames_length] at hi
      rw [hsp, annotateFrames_getD _ _ i hi, annotateFrames_length]
      exact ⟨rfl, rfl⟩

/-- Witness for C5: sending `"Hello"` with `max_frame_size = 3` emits more
than one frame. -/
theorem single_shot_fragmentation_witness :
    1 < (ws_send_frames 3 false [72, 101, 108, 108, 111]).length :=
  ((single_shot_fragmentation 3 false [72, 101, 108, 108, 111]).2.1
    (by decide) (by decide)).1

theorem feed_hdr_step (strict : Bool) (buf : List Nat) (b : Nat) (rest : List Nat)
    (n : Nat) (hd : decodeHeader strict (buf ++ [b]) = .needMore n) :
    feed strict (.wantHdr buf) (b :: rest) = feed strict (.wantHdr (buf ++ [b])) rest := by
  rw [feed_hdr_cons, hd]

theorem feed_hdr_ok (strict : Bool) (buf : List Nat) (b : Nat) (rest : List Nat)
    (h : WsHeader) (c : Nat) (hd : decodeHeader strict (buf ++ [b]) = .ok h c) :
    feed strict (.wantHdr buf) (b :: rest)
      = if h.payloadLen = 0 then
          ((feed strict (.wantHdr []) rest).1,
            .frameBegin h :: .frameEnd :: (feed strict (.wantHdr []) rest).2)
        else ((feed strict (.wantPayload h h.payloadLen 0) rest).1,
              .frameBegin h :: (feed strict (.wantPayload h h.payloadLen 0) rest).2) := by
  rw [feed_hdr_cons, hd]

theorem feed_consume_header (strict : Bool) :
    ∀ (hdr buf tail : List Nat) (h : WsHeader) (c : Nat),
      hdr ≠ [] →
      (∀ k, 1 ≤ k → k < hdr.length →
        ∃ n, decodeHeader strict (buf ++ hdr.take k) = .needMore n) →
      decodeHeader strict (buf ++ hdr) = .ok h c →
      feed strict (.wantHdr buf) (hdr ++ tail)
        = if h.payloadLen = 0 then
            ((feed strict (.wantHdr []) tail).1,
              .frameBegin h :: .frameEnd :: (feed strict (.wantHdr []) tail).2)
          else ((feed strict (.wantPayload h h.payloadLen 0) tail).1,
                .frameBegin h :: (feed strict (.wantPayload h h.payloadLen 0) tail).2) := by
  intro hdr
  induction hdr with
  | nil => intro buf tail h c hne; exact absurd rfl hne
  | cons x hdr2 ih =>
    intro buf tail h c hne hpre hok
    cases hdr2 with
    | nil =>
      have : buf ++ [x] ++ [] = buf ++ [x] := by simp
      exact feed_hdr_ok strict buf x tail h c (by simpa using hok)
    | cons y hdr3 =>
      obtain ⟨n, hn⟩ := hpre 1 (by omega) (by simp)
      have hn2 : decodeHeader strict (buf ++ [x]) = .needMore n := by
        simpa using hn
      rw [show (x :: y :: hdr3) ++ tail = x :: ((y :: hdr3) ++ tail) from rfl,
          feed_hdr_step strict buf x ((y :: hdr3) ++ tail) n hn2]
      refine ih (buf ++ [x]) tail h c (by simp) ?_ (by simpa using hok)
      intro k hk1 hk2
      have := hpre (k + 1) (by omega) (by simp at hk2 ⊢; omega)
      simpa [List.take_cons, List.append_assoc] using this

theorem decodeFinish_key (fin : Bool) (op plen : Nat) (key : Nat) (extra : List Nat)
    (c : Nat) :
    decodeFinish fin op true plen (u32Bytes key ++ extra) c
      = .ok ⟨fin, op, true, plen, u32Bytes key⟩ (c + 4) := by
  have e : ∀ a : Nat, a % 256 % 256 = a % 256 := fun a => by omega
  simp [decodeFinish, u32Bytes, e]

theorem decodeHeader_two (b0 b1 : Nat) (rest : List Nat)
    (h0 : b0 < 256) (hrsv : b0 / 16 % 8 = 0) (hvo : validOp (b0 % 16) = true)
    (hc : isControlOp (b0 % 16) = false) (hm : 128 ≤ b1) (hb1 : b1 < 256) :
    decodeHeader false (b0 :: b1 :: rest)
      = (if b1 % 128 ≤ 125
         then decodeFinish (decide (128 ≤ b0)) (b0 % 16) true (b1 % 128) rest 2
         else if b1 % 128 = 126 then decodeLen126 (decide (128 ≤ b0)) (b0 % 16) true rest
         else decodeLen127 (decide (128 ≤ b0)) (b0 % 16) true rest) := by
  have e0 : b0 % 256 = b0 := Nat.mod_eq_of_lt h0
  have e1 : b1 % 256 = b1 := Nat.mod_eq_of_lt hb1
  have em : decide (128 ≤ b1) = true := decide_eq_true hm
  simp only [decodeHeader, e0, e1]
  rw [if_neg (by omega), if_neg (by simp [hvo]),
      if_neg (by intro hh; exact absurd hh.1 (by simp)),
      if_neg (by intro hh; rw [hc] at hh; exact absurd hh.1 (by simp)),
      if_neg (by intro hh; rw [hc] at hh; exact absurd hh.1 (by simp)), em]

theorem decodeHeader_client_two (fin : Bool) (op b0 b1 : Nat) (rest : List Nat)
    (hb0 : b0 < 256) (hrsv : b0 / 16 % 8 = 0) (hop16 : b0 % 16 = op)
    (hfin : decide (128 ≤ b0) = fin) (hvo : validOp op = true)
    (hcop : isControlOp op = false) (hm : 128 ≤ b1) (hb1 : b1 < 256) :
    decodeHeader false (b0 :: b1 :: rest)
      = (if b1 % 128 ≤ 125 then decodeFinish fin op true (b1 % 128) rest 2
         else if b1 % 128 = 126 then decodeLen126 fin op true rest
         else decodeLen127 fin op true rest) := by
  rw [decodeHeader_two b0 b1 rest hb0 hrsv (by rw [hop16]; exact hvo)
        (by rw [hop16]; exact hcop) hm hb1, hop16, hfin]

theorem feed_masked_payload (kb : List Nat) (h : WsHeader) (p rest : List Nat)
    (rem : Nat) (hp : p ≠ []) (hkb : h.maskKeyBytes = kb) (hrem : rem = p.length) :
    feed false (.wantPayload h rem 0) (maskBytesAt kb 0 p ++ rest)
      = ((feed false (.wantHdr []) rest).1,
         .framePayload p :: .frameEnd :: (feed false (.wantHdr []) rest).2) := by
  subst hrem
  cases hm : maskBytesAt kb 0 p with
  | nil =>
      cases p with
      | nil => exact absurd rfl hp
      | cons a p2 => simp [maskBytesAt] at hm
  | cons m0 ms =>
      have hlenm : (m0 :: ms).length = p.length := by
        rw [← hm]; exact maskBytesAt_length kb 0 p
      rw [show (m0 :: ms) ++ rest = m0 :: (ms ++ rest) from rfl,
          feed_payload_cons false h p.length 0 m0 (ms ++ rest)]
      have hple : ¬ (p.length = 0) := by
        intro h0; exact hp (List.length_eq_zero.mp h0)
      rw [if_neg hple]
      have hlename : m0 :: ms = maskBytesAt kb 0 p := hm.symm
      have hle : p.length ≤ (m0 :: (ms ++ rest)).length := by
        simp at hlenm ⊢; omega
      rw [if_pos hle]
      have htake : (m0 :: (ms ++ rest)).take p.length = m0 :: ms := by
        rw [show m0 :: (ms ++ rest) = (m0 :: ms) ++ rest from rfl,
            List.take_append_of_le_length (by omega),
            List.take_of_length_le (by omega)]
      have hdrop : (m0 :: (ms ++ rest)).drop p.length = rest := by
        rw [show m0 :: (ms ++ rest) = (m0 :: ms) ++ rest from rfl,
            List.drop_append_eq_append_drop, List.drop_eq_nil_of_le (by omega)]
        simp [hlenm]
      rw [htake, hdrop, hkb, hlename, maskBytesAt_maskBytesAt]

theorem decodeFinish_key2 (fin : Bool) (op plen : Nat) (key : Nat) (c : Nat) :
    decodeFinish fin op true plen (u32Bytes key) c
      = .ok ⟨fin, op, true, plen, u32Bytes key⟩ (c + 4) := by
  have e : ∀ a : Nat, a % 256 % 256 = a % 256 := fun a => by omega
  simp [decodeFinish, u32Bytes, e]

set_option maxHeartbeats 4000000 in
theorem feed_encodeFrame (key : Nat) (fin : Bool) (op : Nat) (p rest : List Nat)
    (hop : op = 0 ∨ op = 1 ∨ op = 2) (hlen : p.length < 2 ^ 63) :
    feed false initPState (encodeFrameClient key fin op p ++ rest)
      = ((feed false initPState rest).1,
         dataFrameEvents ⟨fin, op, true, p.length, u32Bytes key⟩ p
           ++ (feed false initPState rest).2) := by
  obtain ⟨hb0, hrsv, hop16, hfin⟩ :
      ((if fin then 128 else 0) + op) < 256
        ∧ ((if fin then 128 else 0) + op) / 16 % 8 = 0
        ∧ ((if fin then 128 else 0) + op) % 16 = op
        ∧ decide (128 ≤ ((if fin then 128 else 0) + op)) = fin := by
    rcases hop with rfl | rfl | rfl <;> cases fin <;>
      exact ⟨by decide, by decide, by decide, by decide⟩
  have hvo : validOp op = true := by rcases hop with rfl | rfl | rfl <;> decide
  have hcop : isControlOp op = false := by rcases hop with rfl | rfl | rfl <;> decide
  simp only [initPState]
  by_cases h125 : p.length ≤ 125
  · have htwo := fun (r : List Nat) =>
      decodeHeader_client_two fin op ((if fin then 128 else 0) + op) (128 + p.length) r
        hb0 hrsv hop16 hfin hvo hcop (by omega) (by omega)
    have hmod : (128 + p.length) % 128 = p.length := by omega
    have hhdr : encodeFrameClient key fin op p ++ rest
        = (((if fin then 128 else 0) + op) :: (128 + p.length) :: u32Bytes key) ++ (maskBytesAt (u32Bytes key) 0 p ++ rest) := by
      simp [encodeFrameClient, encodeHeaderBytes, h125]
    have hok : decodeHeader false ([] ++ (((if fin then 128 else 0) + op) :: (128 + p.length) :: u32Bytes key))
        = .ok ⟨fin, op, true, p.length, u32Bytes key⟩ 6 := by
      rw [List.nil_append, htwo (u32Bytes key), if_pos (by omega), hmod, decodeFinish_key2]
    have hpre : ∀ k, 1 ≤ k → k < ((((if fin then 128 else 0) + op) :: (128 + p.length) :: u32Bytes key)).length →
        ∃ n, decodeHeader false ([] ++ ((((if fin then 128 else 0) + op) :: (128 + p.length) :: u32Bytes key)).take k) = .needMore n := by
      intro k hk1 hk2
      have hk6 : k < 6 := by simpa [u32Bytes] using hk2
      interval_cases k
      · exact ⟨1, rfl⟩
      · refine ⟨4, ?_⟩
        rw [List.nil_append,
            show List.take 2 (((if fin then 128 else 0) + op) :: (128 + p.length) :: u32Bytes key) = [((if fin then 128 else 0) + op), (128 + p.length)] from rfl,
            htwo [], if_pos (by omega), hmod]
        rfl
      · refine ⟨3, ?_⟩
        rw [List.nil_append,
            show List.take 3 (((if fin then 128 else 0) + op) :: (128 + p.length) :: u32Bytes key) = [((if fin then 128 else 0) + op), (128 + p.length), key % 256] from rfl,
            htwo [key % 256], if_pos (by omega), hmod]
        rfl
      · refine ⟨2, ?_⟩
        rw [List.nil_append,
            show List.take 4 (((if fin then 128 else 0) + op) :: (128 + p.length) :: u32Bytes key) = [((if fin then 128 else 0) + op), (128 + p.length), key % 256, key / 256 % 256] from rfl,
            htwo [key % 256, key / 256 % 256], if_pos (by omega), hmod]
        rfl
      · refine ⟨1, ?_⟩
        rw [List.nil_append,
            show List.take 5 (((if fin then 128 else 0) + op) :: (128 + p.length) :: u32Bytes key) = [((if fin then 128 else 0) + op), (128 + p.length), key % 256, key / 256 % 256, key / 256 / 256 % 256] from rfl,
            htwo [key % 256, key / 256 % 256, key / 256 / 256 % 256], if_pos (by omega), hmod]
        rfl
    rw [hhdr, feed_consume_header false (((if fin then 128 else 0) + op) :: (128 + p.length) :: u32Bytes key) []
        (maskBytesAt (u32Bytes key) 0 p ++ rest)
        ⟨fin, op, true, p.length, u32Bytes key⟩ 6 (by simp) hpre hok]
    cases p with
    | nil =>
        have hc0 : (⟨fin, op, true, ([] : List Nat).length, u32Bytes key⟩ : WsHeader).payloadLen
            = 0 := rfl
        rw [if_pos hc0]
        simp [dataFrameEvents, maskBytesAt]
    | cons a p2 =>
        have hcn : ¬ ((⟨fin, op, true, (a :: p2).length, u32Bytes key⟩ : WsHeader).payloadLen
            = 0) := by simp
        rw [if_neg hcn,
            feed_masked_payload (u32Bytes key)
              ⟨fin, op, true, (a :: p2).length, u32Bytes key⟩ (a :: p2) rest _
              (by simp) rfl rfl]
        simp [dataFrameEvents]
  · by_cases h16 : p.length ≤ 65535
    · have htwo := fun (r : List Nat) =>
        decodeHeader_client_two fin op ((if fin then 128 else 0) + op) 254 r
          hb0 hrsv hop16 hfin hvo hcop (by omega) (by omega)
      have hmod : (254 : Nat) % 128 = 126 := by norm_num
      have hhdr : encodeFrameClient key fin op p ++ rest
          = (((if fin then 128 else 0) + op) :: 254 :: (be2 p.length ++ u32Bytes key)) ++ (maskBytesAt (u32Bytes key) 0 p ++ rest) := by
        simp [encodeFrameClient, encodeHeaderBytes, h125, h16]
      have hplen : p.length / 256 % 256 % 256 * 256 + p.length % 256 % 256 = p.length := by
        omega
      have hok : decodeHeader false ([] ++ (((if fin then 128 else 0) + op) :: 254 :: (be2 p.length ++ u32Bytes key)))
          = .ok ⟨fin, op, true, p.length, u32Bytes key⟩ 8 := by
        rw [List.nil_append, htwo (be2 p.length ++ u32Bytes key), if_neg (by omega),
            if_pos hmod]
        simp only [be2, List.cons_append, List.nil_append, decodeLen126]
        rw [decodeFinish_key2, hplen]
      have hpre : ∀ k, 1 ≤ k → k < ((((if fin then 128 else 0) + op) :: 254 :: (be2 p.length ++ u32Bytes key))).length →
          ∃ n, decodeHeader false ([] ++ ((((if fin then 128 else 0) + op) :: 254 :: (be2 p.length ++ u32Bytes key))).take k) = .needMore n := by
        intro k hk1 hk2
        have hk8 : k < 8 := by simpa [be2, u32Bytes] using hk2
        interval_cases k
        · exact ⟨1, rfl⟩
        · refine ⟨6, ?_⟩
          rw [List.nil_append,
              show List.take 2 (((if fin then 128 else 0) + op) :: 254 :: (be2 p.length ++ u32Bytes key)) = [((if fin then 128 else 0) + op), 254] from rfl,
              htwo [], if_neg (by omega), if_pos hmod]
          rfl
        · refine ⟨5, ?_⟩
          rw [List.nil_append,
              show List.take 3 (((if fin then 128 else 0) + op) :: 254 :: (be2 p.length ++ u32Bytes key)) = [((if fin then 128 else 0) + op), 254, p.length / 256 % 256] from rfl,
              htwo [p.length / 256 % 256], if_neg (by omega), if_pos hmod]
          rfl
        · refine ⟨4, ?_⟩
          rw [List.nil_append,
              show List.take 4 (((if fin then 128 else 0) + op) :: 254 :: (be2 p.length ++ u32Bytes key)) = [((if fin then 128 else 0) + op), 254, p.length / 256 % 256, p.length % 256] from rfl,
              htwo [p.length / 256 % 256, p.length % 256], if_neg (by omega), if_pos hmod]
          rfl
        · refine ⟨3, ?_⟩
          rw [List.nil_append,
              show List.take 5 (((if fin then 128 else 0) + op) :: 254 :: (be2 p.length ++ u32Bytes key)) = [((if fin then 128 else 0) + op), 254, p.length / 256 % 256, p.length % 256, key % 256] from rfl,
              htwo [p.length / 256 % 256, p.length % 256, key % 256], if_neg (by omega), if_pos hmod]
          rfl
        · refine ⟨2, ?_⟩
          rw [List.nil_append,
              show List.take 6 (((if fin then 128 else 0) + op) :: 254 :: (be2 p.length ++ u32Bytes key)) = [((if fin then 128 else 0) + op), 254, p.length / 256 % 256, p.length % 256, key % 256, key / 256 % 256] from rfl,
              htwo [p.length / 256 % 256, p.length % 256, key % 256, key / 256 % 256], if_neg (by omega), if_pos hmod]
          rfl
        · refine ⟨1, ?_⟩
          rw [List.nil_append,
              show List.take 7 (((if fin then 128 else 0) + op) :: 254 :: (be2 p.length ++ u32Bytes key)) = [((if fin then 128 else 0) + op), 254, p.length / 256 % 256, p.length % 256, key % 256, key / 256 % 256, key / 256 / 256 % 256] from rfl,
              htwo [p.length / 256 % 256, p.length % 256, key % 256, key / 256 % 256, key / 256 / 256 % 256], if_neg (by omega), if_pos hmod]
          rfl
      rw [hhdr, feed_consume_header false (((if fin then 128 else 0) + op) :: 254 :: (be2 p.length ++ u32Bytes key)) []
          (maskBytesAt (u32Bytes key) 0 p ++ rest)
          ⟨fin, op, true, p.length, u32Bytes key⟩ 8 (by simp) hpre hok]
      cases p with
      | nil => simp at h125
      | cons a p2 =>
          have hcn : ¬ ((⟨fin, op, true, (a :: p2).length, u32Bytes key⟩ : WsHeader).payloadLen
              = 0) := by simp
          rw [if_neg hcn,
              feed_masked_payload (u32Bytes key)
                ⟨fin, op, true, (a :: p2).length, u32Bytes key⟩ (a :: p2) rest _
                (by simp) rfl rfl]
          simp [dataFrameEvents]
    · have htwo := fun (r : List Nat) =>
        decodeHeader_client_two fin op ((if fin then 128 else 0) + op) 255 r
          hb0 hrsv hop16 hfin hvo hcop (by omega) (by omega)
      have hmod125 : ¬ ((255 : Nat) % 128 ≤ 125) := by norm_num
      have hmod126 : ¬ ((255 : Nat) % 128 = 126) := by norm_num
      have hhi : ¬ (128 ≤ (p.length / 2 ^ 56 % 256) % 256) := by omega
      have hhdr : encodeFrameClient key fin op p ++ rest
          = (((if fin then 128 else 0) + op) :: 255 :: (be8 p.length ++ u32Bytes key)) ++ (maskBytesAt (u32Bytes key) 0 p ++ rest) := by
        simp [encodeFrameClient, encodeHeaderBytes, h125, h16]
      have hplen : p.length / 2 ^ 56 % 256 % 256 * 2 ^ 56
            + p.length / 2 ^ 48 % 256 % 256 * 2 ^ 48
            + p.length / 2 ^ 40 % 256 % 256 * 2 ^ 40
            + p.length / 2 ^ 32 % 256 % 256 * 2 ^ 32
            + p.length / 2 ^ 24 % 256 % 256 * 2 ^ 24
            + p.length / 2 ^ 16 % 256 % 256 * 2 ^ 16
            + p.length / 2 ^ 8 % 256 % 256 * 2 ^ 8
            + p.length % 256 % 256
          = p.length := by omega
      have hok : decodeHeader false ([] ++ (((if fin then 128 else 0) + op) :: 255 :: (be8 p.length ++ u32Bytes key)))
          = .ok ⟨fin, op, true, p.length, u32Bytes key⟩ 14 := by
        rw [List.nil_append, htwo (be8 p.length ++ u32Bytes key), if_neg hmod125,
            if_neg hmod126]
        simp only [be8, List.cons_append, List.nil_append, decodeLen127]
        rw [if_neg hhi]
        simp only [decodeLen127Tail]
        rw [decodeFinish_key2, hplen]
      have hpre : ∀ k, 1 ≤ k → k < ((((if fin then 128 else 0) + op) :: 255 :: (be8 p.length ++ u32Bytes key))).length →
          ∃ n, decodeHeader false ([] ++ ((((if fin then 128 else 0) + op) :: 255 :: (be8 p.length ++ u32Bytes key))).take k) = .needMore n := by
        intro k hk1 hk2
        have hk14 : k < 14 := by simpa [be8, u32Bytes] using hk2
        interval_cases k
        · exact ⟨1, rfl⟩
        · refine ⟨12, ?_⟩
          rw [List.nil_append,
              show List.take 2 (((if fin then 128 else 0) + op) :: 255 :: (be8 p.length ++ u32Bytes key)) = [((if fin then 128 else 0) + op), 255] from rfl,
              htwo [], if_neg hmod125, if_neg hmod126]
          rfl
        · refine ⟨11, ?_⟩
          rw [List.nil_append,
              show List.take 3 (((if fin then 128 else 0) + op) :: 255 :: (be8 p.length ++ u32Bytes key)) = [((if fin then 128 else 0) + op), 255, p.length / 2 ^ 56 % 256] from rfl,
              htwo [p.length / 2 ^ 56 % 256], if_neg hmod125, if_neg hmod126]
          simp only [decodeLen127]
          rw [if_neg hhi]
          rfl
        · refine ⟨10, ?_⟩
          rw [List.nil_append,
              show List.take 4 (((if fin then 128 else 0) + op) :: 255 :: (be8 p.length ++ u32Bytes key)) = [((if fin then 128 else 0) + op), 255, p.length / 2 ^ 56 % 256, p.length / 2 ^ 48 % 256] from rfl,
              htwo [p.length / 2 ^ 56 % 256, p.length / 2 ^ 48 % 256], if_neg hmod125, if_neg hmod126]
          simp only [decodeLen127]
          rw [if_neg hhi]
          rfl
        · refine ⟨9, ?_⟩
          rw [List.nil_append,
              show List.take 5 (((if fin then 128 else 0) + op) :: 255 :: (be8 p.length ++ u32Bytes key)) = [((if fin then 128 else 0) + op), 255, p.length / 2 ^ 56 % 256, p.length / 2 ^ 48 % 256, p.length / 2 ^ 40 % 256] from rfl,
              htwo [p.length / 2 ^ 56 % 256, p.length / 2 ^ 48 % 256, p.length / 2 ^ 40 % 256], if_neg hmod125, if_neg hmod126]
          simp only [decodeLen127]
          rw [if_neg hhi]
          rfl
        · refine ⟨8, ?_⟩
          rw [List.nil_append,
              show List.take 6 (((if fin then 128 else 0) + op) :: 255 :: (be8 p.length ++ u32Bytes key)) = [((if fin then 128 else 0) + op), 255, p.length / 2 ^ 56 % 256, p.length / 2 ^ 48 % 256, p.length / 2 ^ 40 % 256, p.length / 2 ^ 32 % 256] from rfl,
              htwo [p.length / 2 ^ 56 % 256, p.length / 2 ^ 48 % 256, p.length / 2 ^ 40 % 256, p.length / 2 ^ 32 % 256], if_neg hmod125, if_neg hmod126]
          simp only [decodeLen127]
          rw [if_neg hhi]
          rfl
        · refine ⟨7, ?_⟩
          rw [List.nil_append,
              show List.take 7 (((if fin then 128 else 0) + op) :: 255 :: (be8 p.length ++ u32Bytes key)) = [((if fin then 128 else 0) + op), 255, p.length / 2 ^ 56 % 256, p.length / 2 ^ 48 % 256, p.length / 2 ^ 40 % 256, p.length / 2 ^ 32 % 256, p.length / 2 ^ 24 % 256] from rfl,
              htwo [p.length / 2 ^ 56 % 256, p.length / 2 ^ 48 % 256, p.length / 2 ^ 40 % 256, p.length / 2 ^ 32 % 256, p.length / 2 ^ 24 % 256], if_neg hmod125, if_neg hmod126]
          simp only [decodeLen127]
          rw [if_neg hhi]
          rfl
        · refine ⟨6, ?_⟩
          rw [List.nil_append,
              show List.take 8 (((if fin then 128 else 0) + op) :: 255 :: (be8 p.length ++ u32Bytes key)) = [((if fin then 128 else 0) + op), 255, p.length / 2 ^ 56 % 256, p.length / 2 ^ 48 % 256, p.length / 2 ^ 40 % 256, p.length / 2 ^ 32 % 256, p.length / 2 ^ 24 % 256, p.length / 2 ^ 16 % 256] from rfl,
              htwo [p.length / 2 ^ 56 % 256, p.length / 2 ^ 48 % 256, p.length / 2 ^ 40 % 256, p.length / 2 ^ 32 % 256, p.length / 2 ^ 24 % 256, p.length / 2 ^ 16 % 256], if_neg hmod125, if_neg hmod126]
          simp only [decodeLen127]
          rw [if_neg hhi]
          rfl
        · refine ⟨5, ?_⟩
          rw [List.nil_append,
              show List.take 9 (((if fin then 128 else 0) + op) :: 255 :: (be8 p.length ++ u32Bytes key)) = [((if fin then 128 else 0) + op), 255, p.length / 2 ^ 56 % 256, p.length / 2 ^ 48 % 256, p.length / 2 ^ 40 % 256, p.length / 2 ^ 32 % 256, p.length / 2 ^ 24 % 256, p.length / 2 ^ 16 % 256, p.length / 2 ^ 8 % 256] from rfl,
              htwo [p.length / 2 ^ 56 % 256, p.length / 2 ^ 48 % 256, p.length / 2 ^ 40 % 256, p.length / 2 ^ 32 % 256, p.length / 2 ^ 24 % 256, p.length / 2 ^ 16 % 256, p.length / 2 ^ 8 % 256], if_neg hmod125, if_neg hmod126]
          simp only [decodeLen127]
          rw [if_neg hhi]
          rfl
        · refine ⟨4, ?_⟩
          rw [List.nil_append,
              show List.take 10 (((if fin then 128 else 0) + op) :: 255 :: (be8 p.length ++ u32Bytes key)) = [((if fin then 128 else 0) + op), 255, p.length / 2 ^ 56 % 256, p.length / 2 ^ 48 % 256, p.length / 2 ^ 40 % 256, p.length / 2 ^ 32 % 256, p.length / 2 ^ 24 % 256, p.length / 2 ^ 16 % 256, p.length / 2 ^ 8 % 256, p.length % 256] from rfl,
              htwo [p.length / 2 ^ 56 % 256, p.length / 2 ^ 48 % 256, p.length / 2 ^ 40 % 256, p.length / 2 ^ 32 % 256, p.length / 2 ^ 24 % 256, p.length / 2 ^ 16 % 256, p.length / 2 ^ 8 % 256, p.length % 256], if_neg hmod125, if_neg hmod126]
          simp only [decodeLen127]
          rw [if_neg hhi]
          rfl
        · refine ⟨3, ?_⟩
          rw [List.nil_append,
              show List.take 11 (((if fin then 128 else 0) + op) :: 255 :: (be8 p.length ++ u32Bytes key)) = [((if fin then 128 else 0) + op), 255, p.length / 2 ^ 56 % 256, p.length / 2 ^ 48 % 256, p.length / 2 ^ 40 % 256, p.length / 2 ^ 32 % 256, p.length / 2 ^ 24 % 256, p.length / 2 ^ 16 % 256, p.length / 2 ^ 8 % 256, p.length % 256, key % 256] from rfl,
              htwo [p.length / 2 ^ 56 % 256, p.length / 2 ^ 48 % 256, p.length / 2 ^ 40 % 256, p.length / 2 ^ 32 % 256, p.length / 2 ^ 24 % 256, p.length / 2 ^ 16 % 256, p.length / 2 ^ 8 % 256, p.length % 256, key % 256], if_neg hmod125, if_neg hmod126]
          simp only [decodeLen127]
          rw [if_neg hhi]
          rfl
        · refine ⟨2, ?_⟩
          rw [List.nil_append,
              show List.take 12 (((if fin then 128 else 0) + op) :: 255 :: (be8 p.length ++ u32Bytes key)) = [((if fin then 128 else 0) + op), 255, p.length / 2 ^ 56 % 256, p.length / 2 ^ 48 % 256, p.length / 2 ^ 40 % 256, p.length / 2 ^ 32 % 256, p.length / 2 ^ 24 % 256, p.length / 2 ^ 16 % 256, p.length / 2 ^ 8 % 256, p.length % 256, key % 256, key / 256 % 256] from rfl,
              htwo [p.length / 2 ^ 56 % 256, p.length / 2 ^ 48 % 256, p.length / 2 ^ 40 % 256, p.length / 2 ^ 32 % 256, p.length / 2 ^ 24 % 256, p.length / 2 ^ 16 % 256, p.length / 2 ^ 8 % 256, p.length % 256, key % 256, key / 256 % 256], if_neg hmod125, if_neg hmod126]
          simp only [decodeLen127]
          rw [if_neg hhi]
          rfl
        · refine ⟨1, ?_⟩
          rw [List.nil_append,
              show List.take 13 (((if fin then 128 else 0) + op) :: 255 :: (be8 p.length ++ u32Bytes key)) = [((if fin then 128 else 0) + op), 255, p.length / 2 ^ 56 % 256, p.length / 2 ^ 48 % 256, p.length / 2 ^ 40 % 256, p.length / 2 ^ 32 % 256, p.length / 2 ^ 24 % 256, p.length / 2 ^ 16 % 256, p.length / 2 ^ 8 % 256, p.length % 256, key % 256, key / 256 % 256, key / 256 / 256 % 256] from rfl,
              htwo [p.length / 2 ^ 56 % 256, p.length / 2 ^ 48 % 256, p.length / 2 ^ 40 % 256, p.length / 2 ^ 32 % 256, p.length / 2 ^ 24 % 256, p.length / 2 ^ 16 % 256, p.length / 2 ^ 8 % 256, p.length % 256, key % 256, key / 256 % 256, key / 256 / 256 % 256], if_neg hmod125, if_neg hmod126]
          simp only [decodeLen127]
          rw [if_neg hhi]
          rfl
      rw [hhdr, feed_consume_header false (((if fin then 128 else 0) + op) :: 255 :: (be8 p.length ++ u32Bytes key)) []
          (maskBytesAt (u32Bytes key) 0 p ++ rest)
          ⟨fin, op, true, p.length, u32Bytes key⟩ 14 (by simp) hpre hok]
      cases p with
      | nil => simp at h125
      | cons a p2 =>
          have hcn : ¬ ((⟨fin, op, true, (a :: p2).length, u32Bytes key⟩ : WsHeader).payloadLen
              = 0) := by simp
          rw [if_neg hcn,
              feed_masked_payload (u32Bytes key)
                ⟨fin, op, true, (a :: p2).length, u32Bytes key⟩ (a :: p2) rest _
                (by simp) rfl rfl]
          simp [dataFrameEvents]

theorem feed_encodeFrames (keys : Nat → Nat) :
    ∀ (fs : List (Bool × Nat × List Nat)) (i : Nat),
      (∀ f ∈ fs, (f.2.1 = 0 ∨ f.2.1 = 1 ∨ f.2.1 = 2) ∧ f.2.2.length < 2 ^ 63) →
      feed false initPState (encodeFrames keys i fs)
        = (initPState, framesEvents (clientFrames keys i fs)) := by
  intro fs
  induction fs with
  | nil =>
      intro i hfs
      simp [encodeFrames, clientFrames, framesEvents, initPState, feed_nil]
  | cons f fs2 ih =>
      intro i hfs
      obtain ⟨fin, op, c⟩ := f
      have hf := hfs (fin, op, c) (by simp)
      simp only [encodeFrames, clientFrames, framesEvents]
      rw [feed_encodeFrame (keys i) fin op c (encodeFrames keys (i + 1) fs2)
            hf.1 hf.2,
          ih (i + 1) (fun f hf2 => hfs f (by simp [hf2]))]

theorem annotateFrames_mem (op : Nat) (cs : List (List Nat)) :
    ∀ f ∈ annotateFrames op cs, (f.2.1 = op ∨ f.2.1 = 0) ∧ f.2.2 ∈ cs := by
  induction cs generalizing op with
  | nil => intro f hf; simp [annotateFrames] at hf
  | cons c cs2 ih =>
      cases cs2 with
      | nil =>
          intro f hf
          simp [annotateFrames] at hf
          subst hf
          simp
      | cons c2 cs3 =>
          intro f hf
          simp only [annotateFrames, List.mem_cons] at hf
          rcases hf with rfl | hf2
          · simp
          · obtain ⟨h1, h2⟩ := ih 0 f hf2
            refine ⟨?_, by simp [h2]⟩
            rcases h1 with h1 | h1 <;> simp [h1]

theorem clientFrames_shape (keys : Nat → Nat) :
    ∀ (cs : List (List Nat)), cs ≠ [] → ∀ j,
      contFramesShape (clientFrames keys j (annotateFrames 0 cs)) = true := by
  intro cs
  induction cs with
  | nil => intro h; exact absurd rfl h
  | cons c cs2 ih =>
      intro hne j
      cases cs2 with
      | nil => simp [annotateFrames, clientFrames, contFramesShape]
      | cons c2 cs3 =>
          have ihs := ih (by simp) (j + 1)
          simp only [annotateFrames, clientFrames] at ihs ⊢
          cases hcf : clientFrames keys (j + 1) (annotateFrames 0 (c2 :: cs3)) with
          | nil =>
              rw [hcf] at ihs
              simp [contFramesShape] at ihs
          | cons g gs =>
              rw [hcf] at ihs
              simp [contFramesShape, ihs]

theorem clientFrames_payload (keys : Nat → Nat) :
    ∀ (fs : List (Bool × Nat × List Nat)) (j : Nat),
      framesPayload (clientFrames keys j fs) = (fs.map (fun f => f.2.2)).flatten := by
  intro fs
  induction fs with
  | nil => intro j; rfl
  | cons f fs2 ih =>
      intro j
      obtain ⟨fin, op, c⟩ := f
      simp only [clientFrames, framesPayload, List.map_cons, List.flatten_cons]
      have := ih (j + 1)
      simp only [framesPayload] at this
      rw [this]

theorem annotateFrames_payloads (op : Nat) (cs : List (List Nat)) :
    (annotateFrames op cs).map (fun f => f.2.2) = cs := by
  induction cs generalizing op with
  | nil => rfl
  | cons c cs2 ih =>
      cases cs2 with
      | nil => rfl
      | cons c2 cs3 => simp [annotateFrames, ih 0]

theorem outMessages_dataOutEvents (c : List Nat) : outMessages (dataOutEvents c) = [] := by
  by_cases hc : c.isEmpty <;> simp [dataOutEvents, outMessages, hc]

theorem outMessages_contOuts (fs : List (WsHeader × List Nat)) :
    outMessages (contOuts fs) = [] := by
  induction fs with
  | nil => rfl
  | cons f fs2 ih =>
      have hst : contOuts (f :: fs2)
          = (dataOutEvents f.2 ++ [AsmOut.frameEnd]) ++ contOuts fs2 := by
        simp [contOuts]
      rw [hst]
      simp only [outMessages, List.filterMap_append] at ih ⊢
      rw [ih]
      have hd := outMessages_dataOutEvents f.2
      simp only [outMessages] at hd
      rw [hd]
      simp

/-- Claim C3: fragment-then-reassemble round-trip — for every message
(payload plus TEXT/BINARY opcode, the payload valid UTF-8 when TEXT and of
frameable length) and every `max_frame_size` S ≥ 1, sending through the
fragmenter and feeding the produced wire bytes to the parser and message
assembler yields exactly the original message with its original opcode. -/
theorem fragment_reassemble_roundtrip (S : Nat) (binary : Bool) (p : List Nat)
    (keys : Nat → Nat) (hS : 1 ≤ S) (hlen : p.length < 2 ^ 63)
    (hutf : binary = true ∨ validUtf8 p = true) :
    outMessages (wsReceive false (ws_send_msg_ex S binary p keys))
      = [((if binary then 2 else 1), p)] := by
  have hS0 : ¬ (S = 0) := by omega
  have hop2 : (if binary then 2 else 1) = 1 ∨ (if binary then 2 else 1) = 2 := by
    cases binary <;> simp
  have hchunks : ws_send_frames S binary p
      = annotateFrames (if binary then 2 else 1) (fragSplit S p) := by
    unfold ws_send_frames
    rw [if_neg hS0]
  have hflat : (fragSplit S p).flatten = p := fragSplit_flatten S hS p.length p (le_refl _)
  have hfs : ∀ f ∈ ws_send_frames S binary p,
      (f.2.1 = 0 ∨ f.2.1 = 1 ∨ f.2.1 = 2) ∧ f.2.2.length < 2 ^ 63 := by
    intro f hf
    rw [hchunks] at hf
    obtain ⟨h1, h2⟩ := annotateFrames_mem _ _ f hf
    constructor
    · rcases h1 with h1 | h1
      · rcases hop2 with ho | ho <;> rw [h1, ho] <;> simp
      · simp [h1]
    · have := fragSplit_chunk_le S hS p.length p (le_refl _) f.2.2 h2
      omega
  unfold wsReceive ws_send_msg_ex
  rw [feed_encodeFrames keys (ws_send_frames S binary p) 0 hfs]
  rw [hchunks]
  cases hcs : fragSplit S p with
  | nil => exact absurd hcs (fragSplit_ne_nil S p)
  | cons c cs2 =>
      have hpflat : (c :: cs2).flatten = p := by rw [← hcs]; exact hflat
      cases cs2 with
      | nil =>
          simp only [annotateFrames, clientFrames, framesEvents, List.append_nil]
          rw [asmRun_solo_frame initAsm
                ⟨true, (if binary then 2 else 1), true, c.length,
                  u32Bytes (keys 0)⟩ c rfl rfl (by simp [hop2]) rfl]
          have hcp : c = p := by simpa using hpflat
          subst hcp
          have hnu : ¬ ((⟨true, (if binary then 2 else 1), true, c.length,
              u32Bytes (keys 0)⟩ : WsHeader).opcode = 1 ∧ validUtf8 c = false) := by
            intro hh
            rcases hutf with hb | hv
            · subst hb; simp at hh
            · rw [hv] at hh; simp at hh
          rw [if_neg hnu]
          by_cases hce : c.isEmpty
          · simp [outMessages, dataOutEvents, hce]
          · simp [outMessages, dataOutEvents, hce]
      | cons c2 cs3 =>
          simp only [annotateFrames, clientFrames, framesEvents]
          rw [asmRun_append, asmRun_first_frame initAsm
                ⟨false, (if binary then 2 else 1), true, c.length,
                  u32Bytes (keys 0)⟩ c rfl rfl (by simp [hop2]) rfl]
          have hshape := clientFrames_shape keys (c2 :: cs3) (by simp) 1
          rw [asmRun_cont_frames _ hshape _ (if binary then 2 else 1) rfl rfl]
          have hpay : framesPayload (clientFrames keys 1 (annotateFrames 0 (c2 :: cs3)))
              = (c2 :: cs3).flatten := by
            rw [clientFrames_payload, annotateFrames_payloads]
          have hq : c ++ framesPayload (clientFrames keys 1 (annotateFrames 0 (c2 :: cs3)))
              = p := by
            rw [hpay]
            simpa using hpflat
          have hnu : ¬ ((if binary then 2 else 1) = 1
              ∧ validUtf8 (c ++ framesPayload
                  (clientFrames keys 1 (annotateFrames 0 (c2 :: cs3)))) = false) := by
            rw [hq]
            intro hh
            rcases hutf with hb | hv
            · subst hb; simp at hh
            · rw [hv] at hh; simp at hh
          rw [if_neg hnu, hq]
          simp only [outMessages, List.filterMap_append]
          have h1 : outMessages (AsmOut.msgBegin (if binary then 2 else 1)
              :: (dataOutEvents c ++ [AsmOut.frameEnd])) = [] := by
            by_cases hce : c.isEmpty <;> simp [outMessages, dataOutEvents, hce]
          have h2 := outMessages_contOuts
            (clientFrames keys 1 (annotateFrames 0 (c2 :: cs3)))
          simp only [outMessages] at h1 h2
          rw [h1, h2]
          simp [outMessages]

/-- Witness for C3: the binary message `[65, 66, 67]` sent with
`max_frame_size = 2` (so two frames) reassembles to itself. -/
theorem fragment_reassemble_roundtrip_witness :
    outMessages (wsReceive false (ws_send_msg_ex 2 true [65, 66, 67] (fun i => 7 + i)))
      = [(2, [65, 66, 67])] :=
  fragment_reassemble_roundtrip 2 true [65, 66, 67] (fun i => 7 + i)
    (by decide) (by decide) (Or.inl rfl)

set_option maxRecDepth 100000 in
/-- Claim C4: the computed and validated `Sec-WebSocket-Accept` equals
`base64(SHA1(key_ascii || "258EAFA5-E914-47DA-95CA-C5AB0DC85B11"))` for
every client key, and for the RFC 6455 sample key
`"dGhlIHNhbXBsZSBub25jZQ=="` it is exactly
`"s3pPLMBiTxaQ9kYGzzhZRbK+xOo="`. -/
theorem handshake_accept_derivation :
    (∀ key : List Nat, wsComputeAccept key = base64 (sha1 (key ++ wsGuid)))
    ∧ wsComputeAccept (strBytes ("dGhlIHNhbXBsZSBub25jZQ=="))
        = strBytes ("s3pPLMBiTxaQ9kYGzzhZRbK+xOo=") :=
  ⟨fun _ => rfl, by decide⟩

/-- Claim C9: `ws_close` is equivalent to closing with the normal-closure
status — for every session state it returns the same result (0 on success,
-1 on failure) and has the same effect as `ws_close_with_status` at status
1000. -/
theorem ws_close_equiv_close_1000 (ws : WsSession) :
    ws_close ws = ws_close_with_status ws 1000 := by
  by_cases h : ws.state = .CONNECTED <;>
    simp [ws_close, ws_close_with_status, statusBE, h]

/-- Claim C10: after `ws_set_max_frame_size ws v` returns 0 (as it always
does), `ws_get_max_frame_size` returns exactly `v`, and no other session
field changes. -/
theorem max_frame_size_set_get (ws : WsSession) (v : Nat) :
    (ws_set_max_frame_size ws v).1 = 0
    ∧ ws_get_max_frame_size (ws_set_max_frame_size ws v).2 = v
    ∧ (ws_set_max_frame_size ws v).2.state = ws.state
    ∧ (ws_set_max_frame_size ws v).2.origin = ws.origin
    ∧ (ws_set_max_frame_size ws v).2.subprotocols = ws.subprotocols
    ∧ (ws_set_max_frame_size ws v).2.readRate = ws.readRate
    ∧ (ws_set_max_frame_size ws v).2.readBurst = ws.readBurst
    ∧ (ws_set_max_frame_size ws v).2.writeRate = ws.writeRate
    ∧ (ws_set_max_frame_size ws v).2.writeBurst = ws.writeBurst
    ∧ (ws_set_max_frame_size ws v).2.sentCloseStatus = ws.sentCloseStatus
    ∧ (ws_set_max_frame_size ws v).2.outFrames = ws.outFrames :=
  ⟨rfl, rfl, rfl, rfl, rfl, rfl, rfl, rfl, rfl, rfl, rfl⟩

end LibWs
